import Mathlib

/-!
# graphengine test filters: a shallow embedding

Embedding of `src/graphengine/types.h` (`BufferDescriptor::get_line`) and of the five
filters of `src/testapp/simplefilters.cpp` (Box Blur, Sobel, Masked Merge, Virtual Pad,
Overlay).

Conventions of the embedding.

* `unsigned` is a `Nat` below `2 ^ 32`; every `unsigned` operation that can wrap is written
  with an explicit reduction modulo `2 ^ 32` (`uadd`, `usub`, `toUnsigned`).
* `size_t` is a `Nat` reduced modulo `2 ^ 64`; `ptrdiff_t` and `int32_t` values are `Int`
  (signed overflow is undefined in the source; every signed value computed from 32-bit
  unsigned operands and byte samples fits).
* Memory is one flat byte-addressed store `Mem`; a pointer is an `Int` address.  Buffers
  alias exactly when their addresses coincide, as in the source.
* A `for` loop over `[left, right)` is `forLoop`, structurally recursive on the trip count.
-/

namespace GraphEngine

/-! ## Machine arithmetic -/

/-- The constant `UINT_MAX` of a 32-bit `unsigned`. -/
def UINT_MAX : Nat := 2 ^ 32 - 1

/-- The constant `BUFFER_MAX = ~0U` of `types.h`. -/
def BUFFER_MAX : Nat := 2 ^ 32 - 1

/-- Addition of two `unsigned` values (wraps modulo `2 ^ 32`). -/
def uadd (a b : Nat) : Nat := (a + b) % 2 ^ 32

/-- Multiplication of two `unsigned` values (wraps modulo `2 ^ 32`). -/
def umul (a b : Nat) : Nat := (a * b) % 2 ^ 32

/-- Subtraction of two `unsigned` values (wraps modulo `2 ^ 32`). -/
def usub (a b : Nat) : Nat := (a % 2 ^ 32 + 2 ^ 32 - b % 2 ^ 32) % 2 ^ 32

/-- The conversion `static_cast<unsigned>(x)` of a signed value. -/
def toUnsigned (x : Int) : Nat := (x % 2 ^ 32).toNat

/-- The conversion `static_cast<size_t>(x)` followed by `+ y` in `size_t` arithmetic. -/
def sizeAdd (x y : Nat) : Nat := (x + y) % 2 ^ 64

/-! ## Memory -/

/-- Flat byte-addressed memory. -/
abbrev Mem := Int → Nat

/-- Assignment `*a = v` of a byte `v`. -/
def Mem.write (m : Mem) (a : Int) (v : Nat) : Mem :=
  fun x => if x = a then v else m x

/-- Assignment `*a = static_cast<uint8_t>(v)` of a wider value: truncated to a byte. -/
def Mem.store (m : Mem) (a : Int) (v : Nat) : Mem :=
  m.write a (v % 256)

/-- The algorithm `std::copy_n(first, count, result)` on byte pointers: for each `k` in
`[0, count)` in increasing order, `*(result + k) = *(first + k)`. -/
def copy_n (first : Int) : Nat → Int → Mem → Mem
  | 0, _, m => m
  | count + 1, result, m => copy_n (first + 1) count (result + 1) (m.write result (m first))

/-- A loop `for (j = start; j < start + n; ++j) body(j)` acting on memory. -/
def forLoop (body : Int → Mem → Mem) : Nat → Int → Mem → Mem
  | 0, _, m => m
  | n + 1, j, m => forLoop body n (j + 1) (body j m)

/-! ## `types.h` -/

/-- The struct `PlaneDescriptor`. -/
structure PlaneDescriptor where
  width : Nat
  height : Nat
  bytes_per_sample : Nat
  deriving DecidableEq, Repr

/-- The struct `BufferDescriptor`: base pointer, signed stride, row mask. -/
structure BufferDescriptor where
  ptr : Int
  stride : Int
  mask : Nat
  deriving DecidableEq, Repr

/-- The method `BufferDescriptor::get_line`:
`ptr + static_cast<ptrdiff_t>(i & mask) * stride`. -/
def BufferDescriptor.get_line (b : BufferDescriptor) (i : Nat) : Int :=
  b.ptr + ((i &&& b.mask : Nat) : Int) * b.stride

/-- The fields of `FilterDescriptor` the filters of `simplefilters.cpp` set. -/
structure FilterDescriptor where
  format : PlaneDescriptor
  num_deps : Nat
  num_planes : Nat
  step : Nat
  in_place : Bool
  deriving DecidableEq, Repr

/-! ## `Spatial3x3Filter`, `BoxBlurFilter`, `SobelFilter` -/

/-- The class `Spatial3x3Filter`: only a descriptor. -/
structure Spatial3x3Filter where
  m_desc : FilterDescriptor
  deriving DecidableEq, Repr

/-- The constructor `Spatial3x3Filter(width, height)`. -/
def Spatial3x3Filter.new (width height : Nat) : Spatial3x3Filter :=
  { m_desc :=
      { format := { width := width, height := height, bytes_per_sample := 1 }
        num_deps := 1, num_planes := 1, step := 1, in_place := false } }

/-- The method `Spatial3x3Filter::get_row_deps`. -/
def Spatial3x3Filter.get_row_deps (f : Spatial3x3Filter) (i : Nat) : Nat × Nat :=
  let topdep := usub (max i 1) 1
  let bottomdep := (min (sizeAdd i 2) (f.m_desc.format.height % 2 ^ 64)) % 2 ^ 32
  (topdep, bottomdep)

/-- The method `Spatial3x3Filter::get_col_deps`. -/
def Spatial3x3Filter.get_col_deps (f : Spatial3x3Filter) (left right : Nat) : Nat × Nat :=
  let leftdep := usub (max left 1) 1
  let rightdep := (min (sizeAdd right 2) (f.m_desc.format.width % 2 ^ 64)) % 2 ^ 32
  (leftdep, rightdep)

/-- The three clamped column indices `x0, x1, x2` both stencil loops compute for column `j`:
`max(j - 1, 0)`, `j`, `min(j + 1, width - 1)`, with `width - 1` taken in `unsigned`. -/
def Spatial3x3Filter.stencilCols (f : Spatial3x3Filter) (j : Int) : Int × Int × Int :=
  (max (j - 1) 0, j, min (j + 1) ((usub f.m_desc.format.width 1 : Nat) : Int))

/-- The three input row pointers `y0, y1, y2` both stencil `process` methods take:
`get_line(range.first)`, `get_line(i)`, `get_line(range.second - 1)`. -/
def Spatial3x3Filter.stencilRows (f : Spatial3x3Filter) (inb : BufferDescriptor) (i : Nat) :
    Int × Int × Int :=
  let range := f.get_row_deps i
  (inb.get_line range.1, inb.get_line i, inb.get_line (usub range.2 1))

/-- The value `accum` of `BoxBlurFilter::process` at column `j` (a `uint32_t`). -/
def BoxBlurFilter.accum (f : Spatial3x3Filter) (inb : BufferDescriptor) (i : Nat) (j : Int)
    (m : Mem) : Nat :=
  let (y0, y1, y2) := f.stencilRows inb i
  let (x0, x1, x2) := f.stencilCols j
  (m (y0 + x0) + m (y0 + x1) + m (y0 + x2) +
   m (y1 + x0) + m (y1 + x1) + m (y1 + x2) +
   m (y2 + x0) + m (y2 + x1) + m (y2 + x2)) % 2 ^ 32

/-- The method `BoxBlurFilter::process`. -/
def BoxBlurFilter.process (f : Spatial3x3Filter) (inb out : BufferDescriptor)
    (i left right : Nat) (m : Mem) : Mem :=
  let dstp := out.get_line i
  forLoop (fun j m => m.store (dstp + j) ((BoxBlurFilter.accum f inb i j m + 4) % 2 ^ 32 / 9))
    (right - left) (left : Int) m

/-- The value `gx` of `SobelFilter::process` at column `j`. -/
def SobelFilter.gx (f : Spatial3x3Filter) (inb : BufferDescriptor) (i : Nat) (j : Int)
    (m : Mem) : Int :=
  let (y0, _, y2) := f.stencilRows inb i
  let (x0, x1, x2) := f.stencilCols j
  (m (y2 + x0) : Int) + 2 * m (y2 + x1) + m (y2 + x2) - m (y0 + x0) - 2 * m (y0 + x1)
    - m (y0 + x2)

/-- The value `gy` of `SobelFilter::process` at column `j`. -/
def SobelFilter.gy (f : Spatial3x3Filter) (inb : BufferDescriptor) (i : Nat) (j : Int)
    (m : Mem) : Int :=
  let (y0, y1, y2) := f.stencilRows inb i
  let (x0, _, x2) := f.stencilCols j
  (m (y0 + x2) : Int) + 2 * m (y1 + x2) + m (y2 + x2) - m (y0 + x0) - 2 * m (y1 + x0)
    - m (y2 + x0)

/-- The method `SobelFilter::process`.  The floating-point tail
`xlrintf(std::min(xsqrtf(float(gx) * gx + float(gy) * gy), 255.0f))` is the parameter
`magnitude`; the store truncates its result to a byte. -/
def SobelFilter.process (magnitude : Int → Int → Nat) (f : Spatial3x3Filter)
    (inb out : BufferDescriptor) (i left right : Nat) (m : Mem) : Mem :=
  let dstp := out.get_line i
  forLoop (fun j m =>
      m.store (dstp + j) (magnitude (SobelFilter.gx f inb i j m) (SobelFilter.gy f inb i j m)))
    (right - left) (left : Int) m

/-! ## `MaskedMergeFilter` -/

/-- The class `MaskedMergeFilter`: only a descriptor. -/
structure MaskedMergeFilter where
  m_desc : FilterDescriptor
  deriving DecidableEq, Repr

/-- The constructor `MaskedMergeFilter(width, height)`. -/
def MaskedMergeFilter.new (width height : Nat) : MaskedMergeFilter :=
  { m_desc :=
      { format := { width := width, height := height, bytes_per_sample := 1 }
        num_deps := 3, num_planes := 1, step := 1, in_place := true } }

/-- The method `MaskedMergeFilter::get_row_deps`: `{ i, i + 1 }`. -/
def MaskedMergeFilter.get_row_deps (_f : MaskedMergeFilter) (i : Nat) : Nat × Nat :=
  (i, uadd i 1)

/-- The method `MaskedMergeFilter::get_col_deps`: `{ left, right }`. -/
def MaskedMergeFilter.get_col_deps (_f : MaskedMergeFilter) (left right : Nat) : Nat × Nat :=
  (left, right)

/-- The loop body of `MaskedMergeFilter::process` for one pixel, before the byte store:
`(maskval * src1 + (255 - maskval) * src2 + 127) / 255` in `unsigned` arithmetic. -/
def MaskedMergeFilter.pixel (maskval src1 src2 : Nat) : Nat :=
  let invmaskval := usub 255 maskval
  let result := uadd (umul maskval src1) (umul invmaskval src2)
  uadd result 127 / 255

/-- The method `MaskedMergeFilter::process`; `in0, in1, in2` are `in[0], in[1], in[2]`. -/
def MaskedMergeFilter.process (_f : MaskedMergeFilter) (in0 in1 in2 out : BufferDescriptor)
    (i left right : Nat) (m : Mem) : Mem :=
  let src1 := in0.get_line i
  let src2 := in1.get_line i
  let mask := in2.get_line i
  let dstp := out.get_line i
  forLoop (fun j m =>
      m.store (dstp + j) (MaskedMergeFilter.pixel (m (mask + j)) (m (src1 + j)) (m (src2 + j))))
    (right - left) (left : Int) m

/-! ## `VirtualPadFilter` -/

/-- The class `VirtualPadFilter`. -/
structure VirtualPadFilter where
  m_desc : FilterDescriptor
  m_left : Nat
  m_right : Nat
  m_top : Nat
  m_bottom : Nat
  deriving DecidableEq, Repr

/-- One overflow test of the constructor,
`UINT_MAX - extent < a || UINT_MAX - extent - a < b`, together with the list of `unsigned`
subtractions `(minuend, subtrahend)` it evaluates, in evaluation order.  The operator `||`
evaluates its right operand only when the left one is false. -/
def VirtualPadFilter.overflowTest (extent a b : Nat) : Bool × List (Nat × Nat) :=
  if usub UINT_MAX extent < a then
    (true, [(UINT_MAX, extent)])
  else
    (decide (usub (usub UINT_MAX extent) a < b),
      [(UINT_MAX, extent), (UINT_MAX, extent), (usub UINT_MAX extent, a)])

/-- The constructor `VirtualPadFilter(src_width, src_height, left, right, top, bottom)`;
a thrown `std::runtime_error` is `Except.error` with its message. -/
def VirtualPadFilter.new (src_width src_height left right top bottom : Nat) :
    Except String VirtualPadFilter :=
  if (VirtualPadFilter.overflowTest src_width left right).1 then
    .error "padded dimensions too large"
  else if (VirtualPadFilter.overflowTest src_height top bottom).1 then
    .error "padded dimensions too large"
  else
    .ok
      { m_desc :=
          { format :=
              { width := uadd (uadd src_width left) right
                height := uadd (uadd src_height top) bottom
                bytes_per_sample := 1 }
            num_deps := 1, num_planes := 1, step := 1, in_place := false }
        m_left := left, m_right := right, m_top := top, m_bottom := bottom }

/-- The method `VirtualPadFilter::get_row_deps`. -/
def VirtualPadFilter.get_row_deps (f : VirtualPadFilter) (i : Nat) : Nat × Nat :=
  let src_height := usub (usub f.m_desc.format.height f.m_top) f.m_bottom
  let srctop : Int := (i : Int) - (f.m_top : Int)
  let srcbot : Int := srctop + 1
  let srctop := min (max srctop 0) (src_height : Int)
  let srcbot := min (max srcbot 0) (src_height : Int)
  (toUnsigned srctop, toUnsigned srcbot)

/-- The method `VirtualPadFilter::get_col_deps`. -/
def VirtualPadFilter.get_col_deps (f : VirtualPadFilter) (left right : Nat) : Nat × Nat :=
  let src_width := usub (usub f.m_desc.format.width f.m_left) f.m_right
  let srcleft : Int := (left : Int) - (f.m_left : Int)
  let srcright : Int := (right : Int) - (f.m_left : Int)
  let srcleft := min (max srcleft 0) (src_width : Int)
  let srcright := min (max srcright 0) (src_width : Int)
  (toUnsigned srcleft, toUnsigned srcright)

/-- The method `VirtualPadFilter::process`. -/
def VirtualPadFilter.process (f : VirtualPadFilter) (inb out : BufferDescriptor)
    (i left right : Nat) (m : Mem) : Mem :=
  if i < f.m_top ∨ i ≥ usub f.m_desc.format.height f.m_bottom then
    m
  else
    let srcp := inb.get_line (usub i f.m_top)
    let dstp := out.get_line i
    let range := f.get_col_deps left right
    copy_n (srcp + range.1) (usub range.2 range.1) (dstp + f.m_left) m

/-! ## `OverlayFilter` -/

/-- The class `OverlayFilter`. -/
structure OverlayFilter where
  m_desc : FilterDescriptor
  m_x0 : Nat
  m_x1 : Nat
  m_y0 : Nat
  m_y1 : Nat
  deriving DecidableEq, Repr

/-- The constructor `OverlayFilter(width, height, x0, x1, y0, y1)`. -/
def OverlayFilter.new (width height x0 x1 y0 y1 : Nat) : OverlayFilter :=
  { m_desc :=
      { format := { width := width, height := height, bytes_per_sample := 1 }
        num_deps := 2, num_planes := 1, step := 1, in_place := true }
    m_x0 := x0, m_x1 := x1, m_y0 := y0, m_y1 := y1 }

/-- The method `OverlayFilter::get_row_deps`: `{ i, i + 1 }`. -/
def OverlayFilter.get_row_deps (_f : OverlayFilter) (i : Nat) : Nat × Nat :=
  (i, uadd i 1)

/-- The method `OverlayFilter::get_col_deps`: `{ left, right }`. -/
def OverlayFilter.get_col_deps (_f : OverlayFilter) (left right : Nat) : Nat × Nat :=
  (left, right)

/-- The method `OverlayFilter::process`; `in0, in1` are `in[0]` (base) and `in[1]`
(overlay).  Every `copy_n` count is an `unsigned` difference. -/
def OverlayFilter.process (f : OverlayFilter) (in0 in1 out : BufferDescriptor)
    (i left right : Nat) (m : Mem) : Mem :=
  let srcp0 := in0.get_line i
  let srcp1 := in1.get_line i
  let dstp := out.get_line i
  if i < f.m_y0 ∨ i ≥ f.m_y1 then
    if dstp ≠ srcp0 then
      copy_n (srcp0 + left) (usub right left) (dstp + left) m
    else
      m
  else if dstp = srcp0 then
    let span_left := max left f.m_x0
    let span_right := min right f.m_x1
    copy_n (srcp1 + span_left) (usub span_right span_left) (dstp + span_left) m
  else
    let span0_left := min left f.m_x0
    let span0_right := min right f.m_x0
    let span1_left := max left f.m_x0
    let span1_right := min right f.m_x1
    let span2_left := max left f.m_x1
    let span2_right := max right f.m_x1
    let m := copy_n (srcp0 + span0_left) (usub span0_right span0_left) (dstp + span0_left) m
    let m := copy_n (srcp1 + span1_left) (usub span1_right span1_left) (dstp + span1_left) m
    copy_n (srcp0 + span2_left) (usub span2_right span2_left) (dstp + span2_left) m

/-! ## Specification-side definitions -/

/-- The clamp of `x` to `[lo, hi]`, as the specification writes it. -/
def clamp (x lo hi : Int) : Int := min (max x lo) hi

/-- The filter a successful `VirtualPadFilter` construction yields when no sum wraps. -/
def VirtualPadFilter.exact (src_width src_height left right top bottom : Nat) :
    VirtualPadFilter :=
  { m_desc :=
      { format :=
          { width := src_width + left + right
            height := src_height + top + bottom
            bytes_per_sample := 1 }
        num_deps := 1, num_planes := 1, step := 1, in_place := false }
    m_left := left, m_right := right, m_top := top, m_bottom := bottom }

/-- A window `(first, last)` is a sub-range of `[0, extent)`: `first ≤ last ≤ extent`. -/
def WindowWithin (d : Nat × Nat) (extent : Nat) : Prop := d.1 ≤ d.2 ∧ d.2 ≤ extent

/-- Component-wise order on windows `(first, last)`. -/
def WindowLe (d e : Nat × Nat) : Prop := d.1 ≤ e.1 ∧ d.2 ≤ e.2

/-- The sample at row `row`, column `col` of the plane seen through buffer `b`:
`static_cast<uint8_t *>(b.get_line(row))[col]`. -/
def BufferDescriptor.sample (b : BufferDescriptor) (m : Mem) (row col : Nat) : Nat :=
  m (b.get_line row + col)

/-- A full-height (non-wrapping) buffer for planes of width `width`: the mask is the
all-ones sentinel and the stride magnitude is at least the row width. -/
def BufferDescriptor.FullHeight (b : BufferDescriptor) (width : Nat) : Prop :=
  b.mask = BUFFER_MAX ∧ width ≤ b.stride.natAbs

/-- The explicitly edge-replicated plane `P` of size `(h + 2) x (w + 2)` over a `w x h`
input plane: `P[a][c] = in[clamp(a - 1, 0, h - 1)][clamp(c - 1, 0, w - 1)]`. -/
def replicated (inb : BufferDescriptor) (m : Mem) (w h : Nat) (a c : Nat) : Nat :=
  inb.sample m (clamp ((a : Int) - 1) 0 ((h : Int) - 1)).toNat
    (clamp ((c : Int) - 1) 0 ((w : Int) - 1)).toNat

/-- The unclamped 3x3 mean over the window of `P` with top-left corner `(i, j)`, rounded
half up: `(sum of the nine samples + 4) div 9`. -/
def boxMean (P : Nat → Nat → Nat) (i j : Nat) : Nat :=
  ((∑ a ∈ Finset.range 3, ∑ c ∈ Finset.range 3, P (i + a) (j + c)) + 4) / 9

/-- The Sobel kernel that differences rows, `[[-1,-2,-1],[0,0,0],[1,2,1]]`. -/
def sobelKernelRows : Nat → Nat → Int
  | 0, 0 => -1 | 0, 1 => -2 | 0, 2 => -1
  | 2, 0 => 1 | 2, 1 => 2 | 2, 2 => 1
  | _, _ => 0

/-- The Sobel kernel that differences columns, `[[-1,0,1],[-2,0,2],[-1,0,1]]`. -/
def sobelKernelCols : Nat → Nat → Int
  | 0, 0 => -1 | 1, 0 => -2 | 2, 0 => -1
  | 0, 2 => 1 | 1, 2 => 2 | 2, 2 => 1
  | _, _ => 0

/-- An unclamped 3x3 kernel `K` applied to the window of `P` with top-left corner
`(i, j)`. -/
def applyKernel (K : Nat → Nat → Int) (P : Nat → Nat → Nat) (i j : Nat) : Int :=
  ∑ a ∈ Finset.range 3, ∑ c ∈ Finset.range 3, K a c * (P (i + a) (j + c) : Int)

/-- The caller's loop over the output rows `0, 1, ..., n - 1` in increasing order, one call
`body i` per row. -/
def forRows (body : Nat → Mem → Mem) : Nat → Mem → Mem
  | 0, m => m
  | n + 1, m => body n (forRows body n m)

/-- The input row indices the stencil `process` methods pass to `get_line`:
`range.first`, `i`, `range.second - 1` (the last in `unsigned` arithmetic). -/
def Spatial3x3Filter.rowsRead (f : Spatial3x3Filter) (i : Nat) : List Nat :=
  let range := f.get_row_deps i
  [range.1, i, usub range.2 1]

/-- The column indices the stencil `process` methods read on the tile `[left, right)`:
`x0, x1, x2` for every `j` the loop visits. -/
def Spatial3x3Filter.colsRead (f : Spatial3x3Filter) (left right : Nat) : List Int :=
  (List.range (right - left)).flatMap fun k =>
    [(f.stencilCols ((left : Int) + k)).1, (f.stencilCols ((left : Int) + k)).2.1,
      (f.stencilCols ((left : Int) + k)).2.2]

/-- An input row pointer `p` either is the output row pointer `dstp` (in-place) or its
span `[left, right)` lies apart from the output span. -/
def AliasedOrApart (p dstp : Int) (left right : Nat) : Prop :=
  p = dstp ∨ p + right ≤ dstp + left ∨ dstp + right ≤ p + left

/-- The exact blend `mask * src1 + (255 - mask) * src2` in unbounded integers. -/
def blend (mask src1 src2 : Nat) : Int :=
  (mask : Int) * src1 + (255 - (mask : Int)) * src2

/-! ## Concrete planes used by the examples -/

/-- A memory holding a 4-sample base row `10, 11, 12, 13` at addresses `0..3`, an overlay
row `20, 21, 22, 23` at addresses `100..103`, and the sentinel `99` elsewhere. -/
def exampleMem : Mem := fun a =>
  if 0 ≤ a ∧ a < 4 then 10 + a.toNat
  else if 100 ≤ a ∧ a < 104 then 20 + (a - 100).toNat
  else 99

/-- The base plane of `exampleMem`: one row of width 4 at address 0. -/
def exampleBase : BufferDescriptor := { ptr := 0, stride := 4, mask := BUFFER_MAX }

/-- The overlay plane of `exampleMem`: one row of width 4 at address 100. -/
def exampleOverlay : BufferDescriptor := { ptr := 100, stride := 4, mask := BUFFER_MAX }

/-- A separate output plane inside the sentinel area of `exampleMem`, at address 200. -/
def exampleOut : BufferDescriptor := { ptr := 200, stride := 4, mask := BUFFER_MAX }

/-- A three-row plane of width 4 inside `exampleMem`, at address 0 with stride 100: its
rows are the base row, the overlay row and a sentinel row. -/
def exampleTall : BufferDescriptor := { ptr := 0, stride := 100, mask := BUFFER_MAX }

/-- A three-row output plane of width 4 in the sentinel area, at address 1000. -/
def exampleTallOut : BufferDescriptor := { ptr := 1000, stride := 4, mask := BUFFER_MAX }

/-- A memory for the Masked Merge examples: a `src1` row of four samples 200 at addresses
`0..3`, a mask row of 255 at `300..303`, a mask row of 128 at `500..503`, and 0 elsewhere
(so the rows at `100..103` and `400..403` are all 0). -/
def exampleMergeMem : Mem := fun a =>
  if 0 ≤ a ∧ a < 4 then 200
  else if 300 ≤ a ∧ a < 304 then 255
  else if 500 ≤ a ∧ a < 504 then 128
  else 0

/-- The all-255 mask plane of `exampleMergeMem`, at address 300. -/
def exampleMaskFull : BufferDescriptor := { ptr := 300, stride := 4, mask := BUFFER_MAX }

/-- The all-128 mask plane of `exampleMergeMem`, at address 500. -/
def exampleMaskHalf : BufferDescriptor := { ptr := 500, stride := 4, mask := BUFFER_MAX }

/-- A memory holding a 4 x 4 plane of samples 10 at addresses `0..15` (stride 4), and 0
elsewhere. -/
def exampleConstMem : Mem := fun a => if 0 ≤ a ∧ a < 16 then 10 else 0

/-! ## Machine arithmetic: basic facts -/

theorem usub_of_le {a b : Nat} (h : b ≤ a) (ha : a ≤ UINT_MAX) : usub a b = a - b := by
  unfold usub UINT_MAX at *; omega

theorem usub_of_lt {a b : Nat} (h : a < b) (hb : b ≤ UINT_MAX) :
    usub a b = a + 2 ^ 32 - b := by
  unfold usub UINT_MAX at *; omega

theorem uadd_of_le {a b : Nat} (h : a + b ≤ UINT_MAX) : uadd a b = a + b := by
  unfold uadd UINT_MAX at *; omega

theorem toUnsigned_of_nonneg {x : Int} (h0 : 0 ≤ x) (h1 : x ≤ UINT_MAX) :
    toUnsigned x = x.toNat := by
  unfold toUnsigned UINT_MAX at *; omega

theorem land_BUFFER_MAX {i : Nat} (h : i ≤ UINT_MAX) : i &&& BUFFER_MAX = i := by
  unfold BUFFER_MAX UINT_MAX at *
  rw [Nat.and_pow_two_sub_one_eq_mod i 32]; omega

/-! ## Memory, `copy_n` and store loops -/

theorem Mem.write_eq (m : Mem) (a : Int) (v : Nat) : m.write a v a = v := by
  simp [Mem.write]

theorem Mem.write_ne (m : Mem) {a x : Int} (v : Nat) (h : x ≠ a) : m.write a v x = m x := by
  simp [Mem.write, h]

theorem copy_n_frame (first : Int) (count : Nat) (result : Int) (m : Mem) (a : Int)
    (h : a < result ∨ result + count ≤ a) : copy_n first count result m a = m a := by
  induction count generalizing first result m with
  | zero => rfl
  | succ n ih =>
    rw [copy_n, ih (first + 1) (result + 1) _ (by push_cast at h; omega)]
    exact Mem.write_ne m _ (by push_cast at h; omega)

theorem copy_n_read (first : Int) (count : Nat) (result : Int) (m : Mem) (a : Int)
    (hov : result ≤ first ∨ first + count ≤ result) (h1 : result ≤ a)
    (h2 : a < result + count) :
    copy_n first count result m a = m (first + (a - result)) := by
  induction count generalizing first result m with
  | zero => simp at h2; omega
  | succ n ih =>
    rw [copy_n]
    by_cases hk : a = result
    · subst hk
      rw [copy_n_frame _ _ _ _ _ (Or.inl (by omega)), Mem.write_eq]
      simp
    · rw [ih (first + 1) (result + 1) _ (by push_cast at hov; omega) (by omega)
        (by push_cast at h2; omega)]
      rw [Mem.write_ne m _ (by push_cast at hov h2; omega)]
      congr 1; omega

theorem forLoop_store_frame (dstp : Int) (val : Int → Mem → Nat) (n : Nat) (j0 : Int)
    (m : Mem) (a : Int) (h : a < dstp + j0 ∨ dstp + j0 + n ≤ a) :
    forLoop (fun j m => m.store (dstp + j) (val j m)) n j0 m a = m a := by
  induction n generalizing j0 m with
  | zero => rfl
  | succ n ih =>
    rw [forLoop, ih (j0 + 1) _ (by push_cast at h; omega)]
    exact Mem.write_ne m _ (by push_cast at h; omega)

theorem forLoop_store_read (dstp : Int) (val : Int → Mem → Nat) (n : Nat) (j0 : Int)
    (m : Mem) (k : Int) (h1 : j0 ≤ k) (h2 : k < j0 + n)
    (hval : ∀ m2 : Mem, (∀ a, a < dstp + j0 ∨ dstp + k ≤ a → m2 a = m a) →
      val k m2 = val k m) :
    forLoop (fun j m => m.store (dstp + j) (val j m)) n j0 m (dstp + k) = val k m % 256 := by
  induction n generalizing j0 m with
  | zero => simp at h2; omega
  | succ n ih =>
    rw [forLoop]
    by_cases hk : k = j0
    · subst hk
      rw [forLoop_store_frame dstp val n (k + 1) _ _ (Or.inl (by omega))]
      exact Mem.write_eq m _ _
    · have hstep : ∀ a, a < dstp + j0 ∨ dstp + k ≤ a →
          (m.store (dstp + j0) (val j0 m)) a = m a := by
        intro a ha
        exact Mem.write_ne m _ (by omega)
      rw [ih (j0 + 1) _ (by omega) (by push_cast at h2; omega), hval _ hstep]
      intro m2 hm2
      rw [hval _ hstep]
      apply hval
      intro a ha
      rw [hm2 a (by omega), hstep a ha]

/-! ## Virtual Pad construction -/

theorem VirtualPadFilter.overflowTest_fst {extent a b : Nat} (he : extent ≤ UINT_MAX)
    (ha : a ≤ UINT_MAX) (hb : b ≤ UINT_MAX) :
    (VirtualPadFilter.overflowTest extent a b).1 = true ↔ UINT_MAX < extent + a + b := by
  unfold VirtualPadFilter.overflowTest usub UINT_MAX at *
  split
  · simp only [true_iff]; omega
  · simp only [decide_eq_true_eq]; omega

theorem VirtualPadFilter.overflowTest_snd {extent a b : Nat} (he : extent ≤ UINT_MAX) :
    ∀ p ∈ (VirtualPadFilter.overflowTest extent a b).2, p.2 ≤ p.1 := by
  unfold VirtualPadFilter.overflowTest usub UINT_MAX at *
  split
  · simp only [List.mem_singleton]; rintro p rfl; simpa using he
  · intro p hp
    simp only [List.mem_cons, List.mem_singleton, List.not_mem_nil, or_false] at hp
    rcases hp with rfl | rfl | rfl
    · simpa using he
    · simpa using he
    · simp only; omega

theorem VirtualPadFilter.new_eq {sw sh l r t b : Nat} (hsw : sw ≤ UINT_MAX)
    (hsh : sh ≤ UINT_MAX) (hl : l ≤ UINT_MAX) (hr : r ≤ UINT_MAX) (ht : t ≤ UINT_MAX)
    (hb : b ≤ UINT_MAX) :
    VirtualPadFilter.new sw sh l r t b =
      if UINT_MAX < sw + l + r ∨ UINT_MAX < sh + t + b then
        .error "padded dimensions too large"
      else .ok (VirtualPadFilter.exact sw sh l r t b) := by
  have hW := VirtualPadFilter.overflowTest_fst hsw hl hr
  have hH := VirtualPadFilter.overflowTest_fst hsh ht hb
  unfold VirtualPadFilter.new
  by_cases h1 : UINT_MAX < sw + l + r
  · rw [if_pos (hW.2 h1), if_pos (Or.inl h1)]
  · have h1f : ¬ (VirtualPadFilter.overflowTest sw l r).1 = true := fun h => h1 (hW.1 h)
    rw [if_neg h1f]
    by_cases h2 : UINT_MAX < sh + t + b
    · rw [if_pos (hH.2 h2), if_pos (Or.inr h2)]
    · have h2f : ¬ (VirtualPadFilter.overflowTest sh t b).1 = true := fun h => h2 (hH.1 h)
      rw [if_neg h2f, if_neg (by tauto)]
      have e1 : uadd (uadd sw l) r = sw + l + r := by
        unfold uadd UINT_MAX at *; omega
      have e2 : uadd (uadd sh t) b = sh + t + b := by
        unfold uadd UINT_MAX at *; omega
      rw [e1, e2]; rfl

theorem VirtualPadFilter.new_ok {sw sh l r t b : Nat} {pad : VirtualPadFilter}
    (hsw : sw ≤ UINT_MAX) (hsh : sh ≤ UINT_MAX) (hl : l ≤ UINT_MAX) (hr : r ≤ UINT_MAX)
    (ht : t ≤ UINT_MAX) (hb : b ≤ UINT_MAX)
    (h : VirtualPadFilter.new sw sh l r t b = .ok pad) :
    sw + l + r ≤ UINT_MAX ∧ sh + t + b ≤ UINT_MAX ∧
      pad = VirtualPadFilter.exact sw sh l r t b := by
  rw [VirtualPadFilter.new_eq hsw hsh hl hr ht hb] at h
  split at h
  · cases h
  · rename_i hno
    injection h with h
    exact ⟨by omega, by omega, h.symm⟩

/-- C6: for 32-bit unsigned arguments the `VirtualPadFilter` constructor throws exactly
when `src_width + left + right` or `src_height + top + bottom`, summed in unbounded
integers, exceeds `UINT_MAX`; otherwise it succeeds and the descriptor holds those exact
sums; and in every `unsigned` subtraction the overflow checks evaluate, the subtrahend is at
most the minuend (no wrap-around). -/
theorem VirtualPadFilter.new_fails_iff_overflow (sw sh l r t b : Nat) (hsw : sw ≤ UINT_MAX)
    (hsh : sh ≤ UINT_MAX) (hl : l ≤ UINT_MAX) (hr : r ≤ UINT_MAX) (ht : t ≤ UINT_MAX)
    (hb : b ≤ UINT_MAX) :
    ((∃ msg, VirtualPadFilter.new sw sh l r t b = .error msg) ↔
        (UINT_MAX < sw + l + r ∨ UINT_MAX < sh + t + b)) ∧
      (¬ (UINT_MAX < sw + l + r ∨ UINT_MAX < sh + t + b) →
        ∃ pad, VirtualPadFilter.new sw sh l r t b = .ok pad ∧
          pad.m_desc.format.width = sw + l + r ∧ pad.m_desc.format.height = sh + t + b ∧
          pad.m_left = l ∧ pad.m_right = r ∧ pad.m_top = t ∧ pad.m_bottom = b) ∧
      (∀ p ∈ (VirtualPadFilter.overflowTest sw l r).2 ++
          (VirtualPadFilter.overflowTest sh t b).2, p.2 ≤ p.1) := by
  refine ⟨?_, ?_, ?_⟩
  · rw [VirtualPadFilter.new_eq hsw hsh hl hr ht hb]
    constructor
    · rintro ⟨msg, h⟩
      by_contra hno
      rw [if_neg hno] at h
      cases h
    · intro h
      exact ⟨_, if_pos h⟩
  · intro hno
    refine ⟨VirtualPadFilter.exact sw sh l r t b, ?_, rfl, rfl, rfl, rfl, rfl, rfl⟩
    rw [VirtualPadFilter.new_eq hsw hsh hl hr ht hb, if_neg hno]
  · intro p hp
    rcases List.mem_append.1 hp with hp | hp
    · exact VirtualPadFilter.overflowTest_snd hsw p hp
    · exact VirtualPadFilter.overflowTest_snd hsh p hp

/-- Witness for C6: a 4 x 3 source with borders 1, 2, 1, 1. -/
theorem VirtualPadFilter.new_fails_iff_overflow_witness :
    ((∃ msg, VirtualPadFilter.new 4 3 1 2 1 1 = .error msg) ↔
        (UINT_MAX < 4 + 1 + 2 ∨ UINT_MAX < 3 + 1 + 1)) ∧
      (¬ (UINT_MAX < 4 + 1 + 2 ∨ UINT_MAX < 3 + 1 + 1) →
        ∃ pad, VirtualPadFilter.new 4 3 1 2 1 1 = .ok pad ∧
          pad.m_desc.format.width = 4 + 1 + 2 ∧ pad.m_desc.format.height = 3 + 1 + 1 ∧
          pad.m_left = 1 ∧ pad.m_right = 2 ∧ pad.m_top = 1 ∧ pad.m_bottom = 1) ∧
      (∀ p ∈ (VirtualPadFilter.overflowTest 4 1 2).2 ++
          (VirtualPadFilter.overflowTest 3 1 1).2, p.2 ≤ p.1) :=
  VirtualPadFilter.new_fails_iff_overflow 4 3 1 2 1 1 (by decide) (by decide) (by decide)
    (by decide) (by decide) (by decide)

/-! ## Dependency windows -/

theorem Spatial3x3Filter.get_row_deps_eq {width height i : Nat} (hi : i < height)
    (hH : height ≤ UINT_MAX) :
    (Spatial3x3Filter.new width height).get_row_deps i = (i - 1, min (i + 2) height) := by
  unfold Spatial3x3Filter.get_row_deps Spatial3x3Filter.new usub sizeAdd UINT_MAX at *
  simp only [Prod.mk.injEq]
  omega

theorem Spatial3x3Filter.get_col_deps_eq {width height left right : Nat}
    (hl : left ≤ UINT_MAX) (hr : right ≤ width) (hW : width ≤ UINT_MAX) :
    (Spatial3x3Filter.new width height).get_col_deps left right =
      (left - 1, min (right + 2) width) := by
  unfold Spatial3x3Filter.get_col_deps Spatial3x3Filter.new usub sizeAdd UINT_MAX at *
  simp only [Prod.mk.injEq]
  omega

theorem VirtualPadFilter.exact_get_row_deps (sw sh l r t b : Nat) (i : Nat)
    (hH : sh + t + b ≤ UINT_MAX) (hi : i ≤ UINT_MAX) :
    (VirtualPadFilter.exact sw sh l r t b).get_row_deps i =
      ((clamp ((i : Int) - t) 0 sh).toNat, (clamp ((i : Int) - t + 1) 0 sh).toNat) := by
  unfold VirtualPadFilter.get_row_deps VirtualPadFilter.exact usub toUnsigned clamp
    UINT_MAX at *
  simp only [Prod.mk.injEq]
  omega

theorem VirtualPadFilter.exact_get_col_deps (sw sh l r t b : Nat) (left right : Nat)
    (hW : sw + l + r ≤ UINT_MAX) (hl : left ≤ UINT_MAX) (hr : right ≤ UINT_MAX) :
    (VirtualPadFilter.exact sw sh l r t b).get_col_deps left right =
      ((clamp ((left : Int) - l) 0 sw).toNat, (clamp ((right : Int) - l) 0 sw).toNat) := by
  unfold VirtualPadFilter.get_col_deps VirtualPadFilter.exact usub toUnsigned clamp
    UINT_MAX at *
  simp only [Prod.mk.injEq]
  omega

/-- C7: the dependency windows of all five filters stay inside the input plane.  For Box
Blur and Sobel (which share `Spatial3x3Filter`), Masked Merge and Overlay of positive size
`width x height`, and for a successfully constructed Virtual Pad over a `sw x sh` source,
`get_row_deps i = (first, last)` has `first ≤ last ≤ input height` for every output row, and
`get_col_deps left right` has `first ≤ last ≤ input width` for every tile
`left < right ≤ output width`; the input extent of Virtual Pad is the source extent. -/
theorem deps_within_input_plane (width height x0 x1 y0 y1 sw sh l r t b : Nat)
    (pad : VirtualPadFilter) (hw : 0 < width) (hh : 0 < height) (hW : width ≤ UINT_MAX)
    (hH : height ≤ UINT_MAX) (hsw : sw ≤ UINT_MAX) (hsh : sh ≤ UINT_MAX) (hl : l ≤ UINT_MAX)
    (hr : r ≤ UINT_MAX) (ht : t ≤ UINT_MAX) (hb : b ≤ UINT_MAX)
    (hpad : VirtualPadFilter.new sw sh l r t b = .ok pad) :
    ((∀ i, i < height →
        WindowWithin ((Spatial3x3Filter.new width height).get_row_deps i) height) ∧
      (∀ left right, left < right → right ≤ width →
        WindowWithin ((Spatial3x3Filter.new width height).get_col_deps left right) width)) ∧
    ((∀ i, i < height →
        WindowWithin ((MaskedMergeFilter.new width height).get_row_deps i) height) ∧
      (∀ left right, left < right → right ≤ width →
        WindowWithin ((MaskedMergeFilter.new width height).get_col_deps left right) width)) ∧
    ((∀ i, i < height →
        WindowWithin ((OverlayFilter.new width height x0 x1 y0 y1).get_row_deps i) height) ∧
      (∀ left right, left < right → right ≤ width →
        WindowWithin ((OverlayFilter.new width height x0 x1 y0 y1).get_col_deps left right)
          width)) ∧
    ((∀ i, i < pad.m_desc.format.height → WindowWithin (pad.get_row_deps i) sh) ∧
      (∀ left right, left < right → right ≤ pad.m_desc.format.width →
        WindowWithin (pad.get_col_deps left right) sw) ∧
      usub (usub pad.m_desc.format.height pad.m_top) pad.m_bottom = sh ∧
      usub (usub pad.m_desc.format.width pad.m_left) pad.m_right = sw) := by
  obtain ⟨hsumW, hsumH, rfl⟩ := VirtualPadFilter.new_ok hsw hsh hl hr ht hb hpad
  have _hpos : 0 < width ∧ 0 < height := ⟨hw, hh⟩
  refine ⟨⟨?_, ?_⟩, ⟨?_, ?_⟩, ⟨?_, ?_⟩, ?_, ?_, ?_, ?_⟩
  · intro i hi
    rw [Spatial3x3Filter.get_row_deps_eq hi hH]
    unfold WindowWithin; simp only; omega
  · intro left right hlr hrw
    rw [Spatial3x3Filter.get_col_deps_eq (by omega) hrw hW]
    unfold WindowWithin; simp only; omega
  · intro i hi
    unfold WindowWithin MaskedMergeFilter.get_row_deps uadd UINT_MAX at *
    simp only; omega
  · intro left right hlr hrw
    unfold WindowWithin MaskedMergeFilter.get_col_deps
    simp only; omega
  · intro i hi
    unfold WindowWithin OverlayFilter.get_row_deps uadd UINT_MAX at *
    simp only; omega
  · intro left right hlr hrw
    unfold WindowWithin OverlayFilter.get_col_deps
    simp only; omega
  · intro i hi
    have hi2 : i < sh + t + b := hi
    rw [VirtualPadFilter.exact_get_row_deps sw sh l r t b i hsumH (by omega)]
    unfold WindowWithin clamp; simp only; omega
  · intro left right hlr hrw
    have hrw2 : right ≤ sw + l + r := hrw
    rw [VirtualPadFilter.exact_get_col_deps sw sh l r t b left right hsumW (by omega) (by omega)]
    unfold WindowWithin clamp; simp only; omega
  · unfold VirtualPadFilter.exact usub UINT_MAX at *; simp only; omega
  · unfold VirtualPadFilter.exact usub UINT_MAX at *; simp only; omega

/-- Witness for C7: 4 x 3 planes, and a 4 x 3 source padded by 1, 2, 1, 1. -/
theorem deps_within_input_plane_witness :
    WindowWithin ((Spatial3x3Filter.new 4 3).get_row_deps 2) 3 ∧
      WindowWithin ((VirtualPadFilter.exact 4 3 1 2 1 1).get_col_deps 0 7) 4 :=
  have h := deps_within_input_plane 4 3 1 2 1 2 4 3 1 2 1 1 (VirtualPadFilter.exact 4 3 1 2 1 1)
    (by decide) (by decide) (by decide) (by decide) (by decide) (by decide) (by decide)
    (by decide) (by decide) (by decide) rfl
  ⟨h.1.1 2 (by decide), h.2.2.2.2.1 0 7 (by decide) (by decide)⟩

/-- C8: the dependency windows of all five filters are monotonically non-decreasing.  For
output rows `i ≤ i2` below the output height the row windows are component-wise ordered,
and for column ranges with `left ≤ left2` and `right ≤ right2`, all at most the output
width, the column windows are component-wise ordered. -/
theorem deps_monotone (width height x0 x1 y0 y1 sw sh l r t b : Nat)
    (pad : VirtualPadFilter) (hW : width ≤ UINT_MAX)
    (hH : height ≤ UINT_MAX) (hsw : sw ≤ UINT_MAX) (hsh : sh ≤ UINT_MAX) (hl : l ≤ UINT_MAX)
    (hr : r ≤ UINT_MAX) (ht : t ≤ UINT_MAX) (hb : b ≤ UINT_MAX)
    (hpad : VirtualPadFilter.new sw sh l r t b = .ok pad) :
    ((∀ i i2, i ≤ i2 → i2 < height →
        WindowLe ((Spatial3x3Filter.new width height).get_row_deps i)
          ((Spatial3x3Filter.new width height).get_row_deps i2)) ∧
      (∀ left right left2 right2, left ≤ left2 → right ≤ right2 → left2 ≤ width →
        right2 ≤ width →
        WindowLe ((Spatial3x3Filter.new width height).get_col_deps left right)
          ((Spatial3x3Filter.new width height).get_col_deps left2 right2))) ∧
    ((∀ i i2, i ≤ i2 → i2 < height →
        WindowLe ((MaskedMergeFilter.new width height).get_row_deps i)
          ((MaskedMergeFilter.new width height).get_row_deps i2)) ∧
      (∀ left right left2 right2, left ≤ left2 → right ≤ right2 → left2 ≤ width →
        right2 ≤ width →
        WindowLe ((MaskedMergeFilter.new width height).get_col_deps left right)
          ((MaskedMergeFilter.new width height).get_col_deps left2 right2))) ∧
    ((∀ i i2, i ≤ i2 → i2 < height →
        WindowLe ((OverlayFilter.new width height x0 x1 y0 y1).get_row_deps i)
          ((OverlayFilter.new width height x0 x1 y0 y1).get_row_deps i2)) ∧
      (∀ left right left2 right2, left ≤ left2 → right ≤ right2 → left2 ≤ width →
        right2 ≤ width →
        WindowLe ((OverlayFilter.new width height x0 x1 y0 y1).get_col_deps left right)
          ((OverlayFilter.new width height x0 x1 y0 y1).get_col_deps left2 right2))) ∧
    ((∀ i i2, i ≤ i2 → i2 < pad.m_desc.format.height →
        WindowLe (pad.get_row_deps i) (pad.get_row_deps i2)) ∧
      (∀ left right left2 right2, left ≤ left2 → right ≤ right2 →
        left2 ≤ pad.m_desc.format.width → right2 ≤ pad.m_desc.format.width →
        WindowLe (pad.get_col_deps left right) (pad.get_col_deps left2 right2))) := by
  obtain ⟨hsumW, hsumH, rfl⟩ := VirtualPadFilter.new_ok hsw hsh hl hr ht hb hpad
  refine ⟨⟨?_, ?_⟩, ⟨?_, ?_⟩, ⟨?_, ?_⟩, ?_, ?_⟩
  · intro i i2 hii hi2
    rw [Spatial3x3Filter.get_row_deps_eq (by omega) hH,
      Spatial3x3Filter.get_row_deps_eq hi2 hH]
    unfold WindowLe; simp only; omega
  · intro left right left2 right2 hll hrr hl2 hr2
    rw [Spatial3x3Filter.get_col_deps_eq (by omega) (by omega) hW,
      Spatial3x3Filter.get_col_deps_eq (by omega) hr2 hW]
    unfold WindowLe; simp only; omega
  · intro i i2 hii hi2
    unfold WindowLe MaskedMergeFilter.get_row_deps uadd UINT_MAX at *
    simp only; omega
  · intro left right left2 right2 hll hrr _ _
    exact ⟨hll, hrr⟩
  · intro i i2 hii hi2
    unfold WindowLe OverlayFilter.get_row_deps uadd UINT_MAX at *
    simp only; omega
  · intro left right left2 right2 hll hrr _ _
    exact ⟨hll, hrr⟩
  · intro i i2 hii hi2
    have hi3 : i2 < sh + t + b := hi2
    rw [VirtualPadFilter.exact_get_row_deps sw sh l r t b i hsumH (by omega),
      VirtualPadFilter.exact_get_row_deps sw sh l r t b i2 hsumH (by omega)]
    unfold WindowLe clamp; simp only; omega
  · intro left right left2 right2 hll hrr hl2 hr2
    have hl3 : left2 ≤ sw + l + r := hl2
    have hr3 : right2 ≤ sw + l + r := hr2
    rw [VirtualPadFilter.exact_get_col_deps sw sh l r t b left right hsumW (by omega) (by omega),
      VirtualPadFilter.exact_get_col_deps sw sh l r t b left2 right2 hsumW (by omega) (by omega)]
    unfold WindowLe clamp; simp only; omega

/-- Witness for C8: 4 x 3 planes, and a 4 x 3 source padded by 1, 2, 1, 1. -/
theorem deps_monotone_witness :
    WindowLe ((Spatial3x3Filter.new 4 3).get_row_deps 0)
        ((Spatial3x3Filter.new 4 3).get_row_deps 2) ∧
      WindowLe ((VirtualPadFilter.exact 4 3 1 2 1 1).get_col_deps 0 3)
        ((VirtualPadFilter.exact 4 3 1 2 1 1).get_col_deps 2 7) :=
  have h := deps_monotone 4 3 1 2 1 2 4 3 1 2 1 1 (VirtualPadFilter.exact 4 3 1 2 1 1)
    (by decide) (by decide) (by decide) (by decide) (by decide) (by decide) (by decide)
    (by decide) rfl
  ⟨h.1.1 0 2 (by decide) (by decide),
    h.2.2.2.2 0 3 2 7 (by decide) (by decide) (by decide) (by decide)⟩

/-- C9: the windows of a successfully constructed Virtual Pad (source `sw x sh`, borders
`l, r, t, b`) are the border-translated coordinates clamped in signed arithmetic:
`get_row_deps i = (clamp(i - t, 0, sh), clamp(i - t + 1, 0, sh))` for every output row, which
is `[i - t, i - t + 1)` on an interior row, the empty `[0, 0)` on a top-border row and the
empty `[sh, sh)` on a bottom-border row; `get_col_deps left right =
(clamp(left - l, 0, sw), clamp(right - l, 0, sw))`; and the source extent the methods recover
as output extent minus borders is the constructor's source extent. -/
theorem VirtualPadFilter.deps_eq_clamped_translation (sw sh l r t b : Nat)
    (pad : VirtualPadFilter) (hsw : sw ≤ UINT_MAX) (hsh : sh ≤ UINT_MAX) (hl : l ≤ UINT_MAX)
    (hr : r ≤ UINT_MAX) (ht : t ≤ UINT_MAX) (hb : b ≤ UINT_MAX)
    (hpad : VirtualPadFilter.new sw sh l r t b = .ok pad) :
    (∀ i, i < sh + t + b →
      (((pad.get_row_deps i).1 : Int) = clamp ((i : Int) - t) 0 sh ∧
        ((pad.get_row_deps i).2 : Int) = clamp ((i : Int) - t + 1) 0 sh) ∧
      (t ≤ i → i < t + sh → pad.get_row_deps i = (i - t, i - t + 1)) ∧
      (i < t → pad.get_row_deps i = (0, 0)) ∧
      (t + sh ≤ i → pad.get_row_deps i = (sh, sh))) ∧
    (∀ left right, left ≤ UINT_MAX → right ≤ UINT_MAX →
      ((pad.get_col_deps left right).1 : Int) = clamp ((left : Int) - l) 0 sw ∧
        ((pad.get_col_deps left right).2 : Int) = clamp ((right : Int) - l) 0 sw) ∧
    usub (usub pad.m_desc.format.height pad.m_top) pad.m_bottom = sh ∧
    usub (usub pad.m_desc.format.width pad.m_left) pad.m_right = sw := by
  obtain ⟨hsumW, hsumH, rfl⟩ := VirtualPadFilter.new_ok hsw hsh hl hr ht hb hpad
  refine ⟨?_, ?_, ?_, ?_⟩
  · intro i hi
    rw [VirtualPadFilter.exact_get_row_deps sw sh l r t b i hsumH (by omega)]
    unfold clamp
    refine ⟨⟨?_, ?_⟩, ?_, ?_, ?_⟩
    · simp only; omega
    · simp only; omega
    · intro h1 h2; simp only [Prod.mk.injEq]; omega
    · intro h1; simp only [Prod.mk.injEq]; omega
    · intro h1; simp only [Prod.mk.injEq]; omega
  · intro left right hle hri
    rw [VirtualPadFilter.exact_get_col_deps sw sh l r t b left right hsumW hle hri]
    unfold clamp
    constructor
    · simp only; omega
    · simp only; omega
  · unfold VirtualPadFilter.exact usub UINT_MAX at *; simp only; omega
  · unfold VirtualPadFilter.exact usub UINT_MAX at *; simp only; omega

/-- Witness for C9: a 4 x 3 source padded by 1, 2, 1, 1; row 2 is interior, row 0 lies in
the top border and row 4 in the bottom border. -/
theorem VirtualPadFilter.deps_eq_clamped_translation_witness :
    (VirtualPadFilter.exact 4 3 1 2 1 1).get_row_deps 2 = (1, 2) ∧
      (VirtualPadFilter.exact 4 3 1 2 1 1).get_row_deps 0 = (0, 0) ∧
      (VirtualPadFilter.exact 4 3 1 2 1 1).get_row_deps 4 = (3, 3) :=
  have h := VirtualPadFilter.deps_eq_clamped_translation 4 3 1 2 1 1
    (VirtualPadFilter.exact 4 3 1 2 1 1)
    (by decide) (by decide) (by decide) (by decide) (by decide) (by decide) rfl
  ⟨(h.1 2 (by decide)).2.1 (by decide) (by decide), (h.1 0 (by decide)).2.2.1 (by decide),
    (h.1 4 (by decide)).2.2.2 (by decide)⟩

/-! ## Full-height buffers -/

theorem BufferDescriptor.get_line_of_mask {b : BufferDescriptor} (hm : b.mask = BUFFER_MAX)
    {i : Nat} (hi : i ≤ UINT_MAX) : b.get_line i = b.ptr + (i : Int) * b.stride := by
  unfold BufferDescriptor.get_line
  rw [hm, land_BUFFER_MAX hi]

/-- In a full-height buffer the samples of two different rows have different addresses:
a sample of row `row` lies outside the `width` bytes of row `i`. -/
theorem BufferDescriptor.FullHeight.row_disjoint {b : BufferDescriptor} {width : Nat}
    (hb : b.FullHeight width) (row i col : Nat) (hrow : row ≤ UINT_MAX) (hi : i ≤ UINT_MAX)
    (hne : row ≠ i) (hcol : col < width) :
    b.get_line row + col < b.get_line i ∨ b.get_line i + width ≤ b.get_line row + col := by
  obtain ⟨hm, hs⟩ := hb
  rw [BufferDescriptor.get_line_of_mask hm hrow, BufferDescriptor.get_line_of_mask hm hi]
  have hs2 : (width : Int) ≤ b.stride ∨ b.stride ≤ -(width : Int) := by omega
  rcases Nat.lt_or_gt_of_ne hne with hlt | hgt
  · have h1 : (row : Int) + 1 ≤ i := by exact_mod_cast hlt
    rcases hs2 with hs2 | hs2
    · left; nlinarith
    · right; nlinarith
  · have h1 : (i : Int) + 1 ≤ row := by exact_mod_cast hgt
    rcases hs2 with hs2 | hs2
    · right; nlinarith
    · left; nlinarith

/-! ## Virtual Pad processing -/

theorem VirtualPadFilter.exact_process_border {sw sh l r t b : Nat}
    (inb out : BufferDescriptor) {i : Nat} (left right : Nat) (m : Mem)
    (hsumH : sh + t + b ≤ UINT_MAX) (hi : i < t ∨ t + sh ≤ i) :
    (VirtualPadFilter.exact sw sh l r t b).process inb out i left right m = m := by
  unfold VirtualPadFilter.process
  rw [if_pos]
  unfold VirtualPadFilter.exact usub UINT_MAX at *
  simp only
  omega

theorem VirtualPadFilter.exact_process_interior {sw sh l r t b : Nat}
    (inb out : BufferDescriptor) {i : Nat} (left right : Nat) (m : Mem)
    (hsumH : sh + t + b ≤ UINT_MAX) (hi1 : t ≤ i) (hi2 : i < t + sh) :
    (VirtualPadFilter.exact sw sh l r t b).process inb out i left right m =
      copy_n
        (inb.get_line (i - t) +
          ((VirtualPadFilter.exact sw sh l r t b).get_col_deps left right).1)
        (usub ((VirtualPadFilter.exact sw sh l r t b).get_col_deps left right).2
          ((VirtualPadFilter.exact sw sh l r t b).get_col_deps left right).1)
        (out.get_line i + l) m := by
  unfold VirtualPadFilter.process
  rw [if_neg]
  · have e : usub i (VirtualPadFilter.exact sw sh l r t b).m_top = i - t := by
      unfold VirtualPadFilter.exact usub UINT_MAX at *
      simp only
      omega
    rw [e]
    rfl
  · unfold VirtualPadFilter.exact usub UINT_MAX at *
    simp only
    omega

/-- C5: Virtual Pad never writes padding.  For a successfully constructed pad (source
`sw x sh`, borders `l, r, t, b`), any output row `i` and tile `left ≤ right ≤ sw + l + r`,
`process` changes no address outside the `sw` interior bytes of row `i`; hence on a
full-height output buffer every sample at a border position `(row, col)` (`row < t`,
`row ≥ t + sh`, `col < l` or `col ≥ l + sw`) keeps its value, and a call on a border row
leaves the whole memory unchanged. -/
theorem VirtualPadFilter.process_preserves_border (sw sh l r t b : Nat)
    (pad : VirtualPadFilter) (hsw : sw ≤ UINT_MAX) (hsh : sh ≤ UINT_MAX) (hl : l ≤ UINT_MAX)
    (hr : r ≤ UINT_MAX) (ht : t ≤ UINT_MAX) (hb : b ≤ UINT_MAX)
    (hpad : VirtualPadFilter.new sw sh l r t b = .ok pad)
    (inb out : BufferDescriptor) (m : Mem) (i left right : Nat) (hi : i < sh + t + b)
    (hlr : left ≤ right) (hrw : right ≤ sw + l + r) :
    (∀ a, a < out.get_line i + l ∨ out.get_line i + l + sw ≤ a →
        pad.process inb out i left right m a = m a) ∧
      (out.FullHeight (sw + l + r) →
        ∀ row col, row < sh + t + b → col < sw + l + r →
          row < t ∨ t + sh ≤ row ∨ col < l ∨ l + sw ≤ col →
          out.sample (pad.process inb out i left right m) row col = out.sample m row col) ∧
      (i < t ∨ t + sh ≤ i → pad.process inb out i left right m = m) := by
  obtain ⟨hsumW, hsumH, rfl⟩ := VirtualPadFilter.new_ok hsw hsh hl hr ht hb hpad
  have hframe : ∀ a, a < out.get_line i + l ∨ out.get_line i + l + sw ≤ a →
      (VirtualPadFilter.exact sw sh l r t b).process inb out i left right m a = m a := by
    intro a ha
    by_cases hint : t ≤ i ∧ i < t + sh
    · rw [VirtualPadFilter.exact_process_interior inb out left right m hsumH hint.1 hint.2]
      apply copy_n_frame
      have hc := VirtualPadFilter.exact_get_col_deps sw sh l r t b left right hsumW
        (by omega) (by omega)
      rw [hc]
      unfold usub clamp UINT_MAX at *
      simp only
      omega
    · rw [VirtualPadFilter.exact_process_border inb out left right m hsumH (by omega)]
  refine ⟨hframe, ?_, ?_⟩
  · intro hfull row col hrow hcol hborder
    unfold BufferDescriptor.sample
    by_cases hint : t ≤ i ∧ i < t + sh
    · apply hframe
      by_cases hri : row = i
      · subst hri
        omega
      · have := hfull.row_disjoint row i col (by omega) (by omega)
          hri hcol
        push_cast at this
        omega
    · rw [VirtualPadFilter.exact_process_border inb out left right m hsumH (by omega)]
  · intro hi2
    exact VirtualPadFilter.exact_process_border inb out left right m hsumH hi2

/-- Witness for C5: a 2 x 1 source padded by one sample on every side (output 4 x 3),
processed on the interior row 1 over the full width and on the border row 0. -/
theorem VirtualPadFilter.process_preserves_border_witness :
    exampleTallOut.sample
        ((VirtualPadFilter.exact 2 1 1 1 1 1).process exampleBase exampleTallOut 1 0 4
          exampleMem) 1 0 = exampleTallOut.sample exampleMem 1 0 ∧
      exampleTallOut.sample
        ((VirtualPadFilter.exact 2 1 1 1 1 1).process exampleBase exampleTallOut 1 0 4
          exampleMem) 1 1 = 10 :=
  have h := VirtualPadFilter.process_preserves_border 2 1 1 1 1 1
    (VirtualPadFilter.exact 2 1 1 1 1 1) (by decide) (by decide) (by decide) (by decide)
    (by decide) (by decide) rfl exampleBase exampleTallOut exampleMem 1 0 4 (by decide)
    (by decide) (by decide)
  ⟨h.2.1 ⟨rfl, by decide⟩ 1 0 (by decide) (by decide) (by decide), by decide⟩

/-! ## The 3x3 stencils -/

theorem Spatial3x3Filter.stencilRows_eq {width height i : Nat} (inb : BufferDescriptor)
    (hi : i < height) (hH : height ≤ UINT_MAX) :
    (Spatial3x3Filter.new width height).stencilRows inb i =
      (inb.get_line (i - 1), inb.get_line i, inb.get_line (min (i + 1) (height - 1))) := by
  unfold Spatial3x3Filter.stencilRows
  rw [Spatial3x3Filter.get_row_deps_eq hi hH]
  have e : usub (min (i + 2) height) 1 = min (i + 1) (height - 1) := by
    unfold usub UINT_MAX at *; omega
  simp only [e]

theorem Spatial3x3Filter.stencilCols_eq {width height : Nat} (j : Nat) (hw : 1 ≤ width)
    (hW : width ≤ UINT_MAX) :
    (Spatial3x3Filter.new width height).stencilCols (j : Int) =
      (((j - 1 : Nat) : Int), (j : Int), ((min (j + 1) (width - 1) : Nat) : Int)) := by
  unfold Spatial3x3Filter.stencilCols Spatial3x3Filter.new usub UINT_MAX at *
  simp only [Prod.mk.injEq, true_and]
  constructor <;> omega

theorem replicated_eq (inb : BufferDescriptor) (m : Mem) {w h : Nat} (hw : 1 ≤ w)
    (hh : 1 ≤ h) (i j : Nat) (hi : i < h) (hj : j < w) :
    (replicated inb m w h (i + 0) (j + 0) = m (inb.get_line (i - 1) + ((j - 1 : Nat) : Int)) ∧
      replicated inb m w h (i + 0) (j + 1) = m (inb.get_line (i - 1) + (j : Int)) ∧
      replicated inb m w h (i + 0) (j + 2) =
        m (inb.get_line (i - 1) + ((min (j + 1) (w - 1) : Nat) : Int))) ∧
    (replicated inb m w h (i + 1) (j + 0) = m (inb.get_line i + ((j - 1 : Nat) : Int)) ∧
      replicated inb m w h (i + 1) (j + 1) = m (inb.get_line i + (j : Int)) ∧
      replicated inb m w h (i + 1) (j + 2) =
        m (inb.get_line i + ((min (j + 1) (w - 1) : Nat) : Int))) ∧
    (replicated inb m w h (i + 2) (j + 0) =
        m (inb.get_line (min (i + 1) (h - 1)) + ((j - 1 : Nat) : Int)) ∧
      replicated inb m w h (i + 2) (j + 1) =
        m (inb.get_line (min (i + 1) (h - 1)) + (j : Int)) ∧
      replicated inb m w h (i + 2) (j + 2) =
        m (inb.get_line (min (i + 1) (h - 1)) + ((min (j + 1) (w - 1) : Nat) : Int))) := by
  have r0 : (clamp (((i + 0 : Nat) : Int) - 1) 0 ((h : Int) - 1)).toNat = i - 1 := by
    unfold clamp; omega
  have r1 : (clamp (((i + 1 : Nat) : Int) - 1) 0 ((h : Int) - 1)).toNat = i := by
    unfold clamp; omega
  have r2 : (clamp (((i + 2 : Nat) : Int) - 1) 0 ((h : Int) - 1)).toNat =
      min (i + 1) (h - 1) := by
    unfold clamp; omega
  have c0 : (clamp (((j + 0 : Nat) : Int) - 1) 0 ((w : Int) - 1)).toNat = j - 1 := by
    unfold clamp; omega
  have c1 : (clamp (((j + 1 : Nat) : Int) - 1) 0 ((w : Int) - 1)).toNat = j := by
    unfold clamp; omega
  have c2 : (clamp (((j + 2 : Nat) : Int) - 1) 0 ((w : Int) - 1)).toNat =
      min (j + 1) (w - 1) := by
    unfold clamp; omega
  unfold replicated BufferDescriptor.sample
  rw [r0, r1, r2, c0, c1, c2]
  exact ⟨⟨rfl, rfl, rfl⟩, ⟨rfl, rfl, rfl⟩, ⟨rfl, rfl, rfl⟩⟩

theorem BoxBlurFilter.accum_eq (inb : BufferDescriptor) (m : Mem) {w h : Nat} (hw : 1 ≤ w)
    (hh : 1 ≤ h) (hW : w ≤ UINT_MAX) (hH : h ≤ UINT_MAX) (i j : Nat) (hi : i < h)
    (hj : j < w) :
    BoxBlurFilter.accum (Spatial3x3Filter.new w h) inb i (j : Int) m =
      (∑ a ∈ Finset.range 3, ∑ c ∈ Finset.range 3, replicated inb m w h (i + a) (j + c))
        % 2 ^ 32 := by
  obtain ⟨⟨e00, e01, e02⟩, ⟨e10, e11, e12⟩, ⟨e20, e21, e22⟩⟩ :=
    replicated_eq inb m hw hh i j hi hj
  unfold BoxBlurFilter.accum
  rw [Spatial3x3Filter.stencilRows_eq inb hi hH, Spatial3x3Filter.stencilCols_eq j hw hW]
  simp only [Finset.sum_range_succ, Finset.sum_range_zero, zero_add]
  rw [e00, e01, e02, e10, e11, e12, e20, e21, e22]
  congr 1
  ring

theorem SobelFilter.gx_eq (inb : BufferDescriptor) (m : Mem) {w h : Nat} (hw : 1 ≤ w)
    (hh : 1 ≤ h) (hW : w ≤ UINT_MAX) (hH : h ≤ UINT_MAX) (i j : Nat) (hi : i < h)
    (hj : j < w) :
    SobelFilter.gx (Spatial3x3Filter.new w h) inb i (j : Int) m =
      applyKernel sobelKernelRows (replicated inb m w h) i j := by
  obtain ⟨⟨e00, e01, e02⟩, ⟨e10, e11, e12⟩, ⟨e20, e21, e22⟩⟩ :=
    replicated_eq inb m hw hh i j hi hj
  unfold SobelFilter.gx applyKernel
  rw [Spatial3x3Filter.stencilRows_eq inb hi hH, Spatial3x3Filter.stencilCols_eq j hw hW]
  simp only [Finset.sum_range_succ, Finset.sum_range_zero, zero_add, sobelKernelRows]
  rw [e00, e01, e02, e10, e11, e12, e20, e21, e22]
  ring

theorem SobelFilter.gy_eq (inb : BufferDescriptor) (m : Mem) {w h : Nat} (hw : 1 ≤ w)
    (hh : 1 ≤ h) (hW : w ≤ UINT_MAX) (hH : h ≤ UINT_MAX) (i j : Nat) (hi : i < h)
    (hj : j < w) :
    SobelFilter.gy (Spatial3x3Filter.new w h) inb i (j : Int) m =
      applyKernel sobelKernelCols (replicated inb m w h) i j := by
  obtain ⟨⟨e00, e01, e02⟩, ⟨e10, e11, e12⟩, ⟨e20, e21, e22⟩⟩ :=
    replicated_eq inb m hw hh i j hi hj
  unfold SobelFilter.gy applyKernel
  rw [Spatial3x3Filter.stencilRows_eq inb hi hH, Spatial3x3Filter.stencilCols_eq j hw hW]
  simp only [Finset.sum_range_succ, Finset.sum_range_zero, zero_add, sobelKernelCols]
  rw [e00, e01, e02, e10, e11, e12, e20, e21, e22]
  ring

theorem replicated_congr (inb : BufferDescriptor) {m m2 : Mem} {w h : Nat} (hw : 1 ≤ w)
    (hh : 1 ≤ h)
    (hm : ∀ row col, row < h → col < w →
      m2 (inb.get_line row + (col : Int)) = m (inb.get_line row + (col : Int)))
    (a c : Nat) : replicated inb m2 w h a c = replicated inb m w h a c := by
  unfold replicated BufferDescriptor.sample
  apply hm
  · unfold clamp; omega
  · unfold clamp; omega

theorem replicated_lt (inb : BufferDescriptor) {m : Mem} (hbyte : ∀ a, m a < 256)
    (w h a c : Nat) : replicated inb m w h a c < 256 :=
  hbyte _

/-- C10: clamp-based edge handling equals explicit edge replication at every pixel.  For
a `w x h` input plane (`w, h ≥ 1`) of byte samples, let `P = replicated inb m w h` be the
`(h + 2) x (w + 2)` edge-replicated plane.  For every pixel `(i, j)` of a tile
`[left, right)` whose output span does not overlap the input plane: the rows the code
selects (`range.first`, `i`, `range.second - 1`) and the columns `max(j - 1, 0)`, `j`,
`min(j + 1, w - 1)` are the clamped coordinates of the window; Box Blur stores
`(sum of the nine P[i + a][j + c] + 4) div 9`; Sobel's `gx` and `gy` are the unclamped Sobel
kernels (row-differencing and column-differencing) applied to the same window of `P`, and
Sobel stores the byte of the magnitude of those two values. -/
theorem stencil_eq_explicit_replication (w h : Nat) (hw : 1 ≤ w) (hh : 1 ≤ h)
    (hW : w ≤ UINT_MAX) (hH : h ≤ UINT_MAX) (inb out : BufferDescriptor) (m : Mem)
    (hbyte : ∀ a, m a < 256) (magnitude : Int → Int → Nat) (i left right : Nat)
    (hi : i < h) (hrw : right ≤ w)
    (hdisj : ∀ row col, row < h → col < w →
      inb.get_line row + (col : Int) < out.get_line i + left ∨
        out.get_line i + right ≤ inb.get_line row + (col : Int))
    (j : Nat) (hj1 : left ≤ j) (hj2 : j < right) :
    ((((Spatial3x3Filter.new w h).get_row_deps i).1 : Int) = clamp ((i : Int) - 1) 0 (h - 1) ∧
      (i : Int) = clamp (i : Int) 0 (h - 1) ∧
      ((usub ((Spatial3x3Filter.new w h).get_row_deps i).2 1 : Nat) : Int) =
        clamp ((i : Int) + 1) 0 (h - 1)) ∧
    (Spatial3x3Filter.new w h).stencilCols (j : Int) =
      (clamp ((j : Int) - 1) 0 (w - 1), (j : Int), clamp ((j : Int) + 1) 0 (w - 1)) ∧
    out.sample (BoxBlurFilter.process (Spatial3x3Filter.new w h) inb out i left right m) i j =
      boxMean (replicated inb m w h) i j ∧
    SobelFilter.gx (Spatial3x3Filter.new w h) inb i (j : Int) m =
      applyKernel sobelKernelRows (replicated inb m w h) i j ∧
    SobelFilter.gy (Spatial3x3Filter.new w h) inb i (j : Int) m =
      applyKernel sobelKernelCols (replicated inb m w h) i j ∧
    out.sample
        (SobelFilter.process magnitude (Spatial3x3Filter.new w h) inb out i left right m) i j =
      magnitude (applyKernel sobelKernelRows (replicated inb m w h) i j)
        (applyKernel sobelKernelCols (replicated inb m w h) i j) % 256 := by
  have hjw : j < w := by omega
  have hstable : ∀ m2 : Mem,
      (∀ a, a < out.get_line i + (left : Int) ∨ out.get_line i + (j : Int) ≤ a →
        m2 a = m a) →
      ∀ a c, replicated inb m2 w h a c = replicated inb m w h a c := by
    intro m2 hm2
    apply replicated_congr inb hw hh
    intro row col hrow hcol
    apply hm2
    have := hdisj row col hrow hcol
    omega
  refine ⟨⟨?_, ?_, ?_⟩, ?_, ?_, ?_, ?_, ?_⟩
  · rw [Spatial3x3Filter.get_row_deps_eq hi hH]; unfold clamp; simp only; omega
  · unfold clamp; omega
  · rw [Spatial3x3Filter.get_row_deps_eq hi hH]
    unfold clamp usub UINT_MAX at *; simp only; omega
  · rw [Spatial3x3Filter.stencilCols_eq j hw hW]
    unfold clamp
    simp only [Prod.mk.injEq, true_and]
    constructor <;> omega
  · unfold BufferDescriptor.sample BoxBlurFilter.process
    rw [forLoop_store_read (out.get_line i) _ (right - left) (left : Int) m (j : Int)
      (by omega) (by omega)]
    · rw [BoxBlurFilter.accum_eq inb m hw hh hW hH i j hi hjw]
      unfold boxMean
      have b := replicated_lt inb hbyte w h
      simp only [Finset.sum_range_succ, Finset.sum_range_zero, zero_add]
      have b00 := b (i + 0) (j + 0)
      have b01 := b (i + 0) (j + 1)
      have b02 := b (i + 0) (j + 2)
      have b10 := b (i + 1) (j + 0)
      have b11 := b (i + 1) (j + 1)
      have b12 := b (i + 1) (j + 2)
      have b20 := b (i + 2) (j + 0)
      have b21 := b (i + 2) (j + 1)
      have b22 := b (i + 2) (j + 2)
      omega
    · intro m2 hm2
      rw [BoxBlurFilter.accum_eq inb m2 hw hh hW hH i j hi hjw,
        BoxBlurFilter.accum_eq inb m hw hh hW hH i j hi hjw]
      simp only [hstable m2 hm2]
  · exact SobelFilter.gx_eq inb m hw hh hW hH i j hi hjw
  · exact SobelFilter.gy_eq inb m hw hh hW hH i j hi hjw
  · unfold BufferDescriptor.sample SobelFilter.process
    rw [forLoop_store_read (out.get_line i) _ (right - left) (left : Int) m (j : Int)
      (by omega) (by omega)]
    · rw [SobelFilter.gx_eq inb m hw hh hW hH i j hi hjw,
        SobelFilter.gy_eq inb m hw hh hW hH i j hi hjw]
    · intro m2 hm2
      rw [SobelFilter.gx_eq inb m2 hw hh hW hH i j hi hjw,
        SobelFilter.gy_eq inb m2 hw hh hW hH i j hi hjw,
        SobelFilter.gx_eq inb m hw hh hW hH i j hi hjw,
        SobelFilter.gy_eq inb m hw hh hW hH i j hi hjw]
      unfold applyKernel
      simp only [hstable m2 hm2]

theorem exampleMem_lt (a : Int) : exampleMem a < 256 := by
  unfold exampleMem
  split_ifs <;> omega

/-- Witness for C10: the corner pixel `(0, 0)` of the 4 x 1 plane `10, 11, 12, 13`, whose
replicated window is three copies of `10, 10, 11`. -/
theorem stencil_eq_explicit_replication_witness :
    exampleOut.sample
        (BoxBlurFilter.process (Spatial3x3Filter.new 4 1) exampleBase exampleOut 0 0 4
          exampleMem) 0 0 = boxMean (replicated exampleBase exampleMem 4 1) 0 0 ∧
      boxMean (replicated exampleBase exampleMem 4 1) 0 0 = 10 :=
  have h := stencil_eq_explicit_replication 4 1 (by decide) (by decide) (by decide)
    (by decide) exampleBase exampleOut exampleMem exampleMem_lt (fun _ _ => 0) 0 0 4
    (by decide) (by decide)
    (fun row col hrow hcol => by
      have h0 : row = 0 := by omega
      subst h0
      have e1 : exampleBase.get_line 0 = 0 := by decide
      have e2 : exampleOut.get_line 0 = 200 := by decide
      omega)
    0 (by decide) (by decide)
  ⟨h.2.2.1, by decide⟩

/-! ## Where `process` departs from the contract -/

theorem usub_one_two : usub (min 3 1) (max 2 0) = 4294967295 := by decide

theorem exampleBase_get_line_zero : exampleBase.get_line 0 = 0 := by decide

theorem exampleOverlay_get_line_zero : exampleOverlay.get_line 0 = 100 := by decide

/-- In place, on the tile `[2, 3)` right of the overlay rectangle `[0, 1) x [0, 1)`, the
span length `span_right - span_left = 1 - 2` wraps to `4294967295`. -/
theorem OverlayFilter.process_in_place_right_tile (m : Mem) :
    OverlayFilter.process (OverlayFilter.new 4 1 0 1 0 1) exampleBase exampleOverlay
      exampleBase 0 2 3 m = copy_n 102 4294967295 2 m := by
  unfold OverlayFilter.process
  simp only [OverlayFilter.new, exampleBase_get_line_zero, exampleOverlay_get_line_zero,
    usub_one_two]
  rw [if_neg (by decide), if_pos trivial]
  rfl

/-- C1, evaluated on the code: source 2 x 1 (`10, 11`), left border 1, output 3 x 1
pre-filled with the sentinel 99.  The pad is successfully constructed, row 0 is interior
and the tile `[2, 3)` has its left edge inside the interior.  The claim requires
`out[0][2] = src[0][1] = 11`; `process` copies `src[0][1]` to `out[0][1]` instead and leaves
`out[0][2]` at the sentinel. -/
theorem VirtualPadFilter.process_interior_tile_misplaced :
    VirtualPadFilter.new 2 1 1 0 0 0 = .ok (VirtualPadFilter.exact 2 1 1 0 0 0) ∧
      exampleBase.sample exampleMem (0 - 0) (2 - 1) = 11 ∧
      exampleOut.sample
        ((VirtualPadFilter.exact 2 1 1 0 0 0).process exampleBase exampleOut 0 2 3
          exampleMem) 0 2 = 99 ∧
      exampleOut.sample
        ((VirtualPadFilter.exact 2 1 1 0 0 0).process exampleBase exampleOut 0 2 3
          exampleMem) 0 1 = 11 :=
  ⟨rfl, by decide, by decide, by decide⟩

/-- C2, evaluated on the code: a 4 x 1 overlay filter with rectangle `[0, 1) x [0, 1)`,
output aliasing the base input (`10, 11, 12, 13`), overlay input `20, 21, 22, 23`, row 0,
tile `[2, 3)` entirely right of `x1 = 1`.  The claim requires `out[0][2] = base[0][2] = 12`;
`process` stores `overlay[0][2] = 22` there. -/
theorem OverlayFilter.process_right_tile_overwrites_base :
    exampleBase.sample exampleMem 0 2 = 12 ∧ exampleOverlay.sample exampleMem 0 2 = 22 ∧
      exampleBase.sample
        (OverlayFilter.process (OverlayFilter.new 4 1 0 1 0 1) exampleBase exampleOverlay
          exampleBase 0 2 3 exampleMem) 0 2 = 22 := by
  refine ⟨by decide, by decide, ?_⟩
  unfold BufferDescriptor.sample
  rw [OverlayFilter.process_in_place_right_tile, exampleBase_get_line_zero,
    copy_n_read _ _ _ _ _ (by decide) (by decide) (by decide)]
  decide

/-- C3, evaluated on the code: the same 4 x 1 in-place overlay, row 0.  One call on
`[0, 3)` leaves `out[0][2] = 12`; the calls on `[0, 2)` and then `[2, 3)` leave
`out[0][2] = 22`, so the two results are not byte-identical. -/
theorem OverlayFilter.process_split_differs :
    exampleBase.sample
        (OverlayFilter.process (OverlayFilter.new 4 1 0 1 0 1) exampleBase exampleOverlay
          exampleBase 0 0 3 exampleMem) 0 2 = 12 ∧
      exampleBase.sample
        (OverlayFilter.process (OverlayFilter.new 4 1 0 1 0 1) exampleBase exampleOverlay
          exampleBase 0 2 3
          (OverlayFilter.process (OverlayFilter.new 4 1 0 1 0 1) exampleBase exampleOverlay
            exampleBase 0 0 2 exampleMem)) 0 2 = 22 := by
  refine ⟨by decide, ?_⟩
  unfold BufferDescriptor.sample
  rw [OverlayFilter.process_in_place_right_tile, exampleBase_get_line_zero,
    copy_n_read _ _ _ _ _ (by decide) (by decide) (by decide)]
  decide

/-- C4, evaluated on the code.  Virtual Pad (source 2 x 1, left border 1), row 0, tile
`[2, 3)`: `out[0][1]`, at a column left of the tile, changes from the sentinel 99 to 11.
Overlay (4 x 1, rectangle `[0, 1) x [0, 1)`, in place), row 0, tile `[2, 3)`: `out[0][3]`,
at a column right of the tile, changes from 13 to 23. -/
theorem process_writes_outside_tile :
    (exampleOut.sample exampleMem 0 1 = 99 ∧
      exampleOut.sample
        ((VirtualPadFilter.exact 2 1 1 0 0 0).process exampleBase exampleOut 0 2 3
          exampleMem) 0 1 = 11) ∧
    (exampleBase.sample exampleMem 0 3 = 13 ∧
      exampleBase.sample
        (OverlayFilter.process (OverlayFilter.new 4 1 0 1 0 1) exampleBase exampleOverlay
          exampleBase 0 2 3 exampleMem) 0 3 = 23) := by
  refine ⟨⟨by decide, by decide⟩, by decide, ?_⟩
  unfold BufferDescriptor.sample
  rw [OverlayFilter.process_in_place_right_tile, exampleBase_get_line_zero,
    copy_n_read _ _ _ _ _ (by decide) (by decide) (by decide)]
  decide

/-! ## What `process` does guarantee -/

theorem forLoop_store_frame_tile (dstp : Int) (val : Int → Mem → Nat) (left right : Nat)
    (m : Mem) (a : Int) (h : a < dstp + left ∨ dstp + right ≤ a) :
    forLoop (fun j m => m.store (dstp + j) (val j m)) (right - left) (left : Int) m a =
      m a := by
  rcases Nat.lt_or_ge right left with hlt | hge
  · have e : right - left = 0 := by omega
    rw [e]; rfl
  · exact forLoop_store_frame dstp val _ _ m a (by omega)

/-- Box Blur writes only the requested span: every address outside columns
`[left, right)` of output row `i` keeps its value. -/
theorem BoxBlurFilter.boxblur_process_frame (f : Spatial3x3Filter) (inb out : BufferDescriptor)
    (i left right : Nat) (m : Mem) (a : Int)
    (h : a < out.get_line i + left ∨ out.get_line i + right ≤ a) :
    BoxBlurFilter.process f inb out i left right m a = m a :=
  forLoop_store_frame_tile (out.get_line i) _ left right m a h

/-- Sobel writes only the requested span: every address outside columns `[left, right)`
of output row `i` keeps its value. -/
theorem SobelFilter.sobel_process_frame (magnitude : Int → Int → Nat) (f : Spatial3x3Filter)
    (inb out : BufferDescriptor) (i left right : Nat) (m : Mem) (a : Int)
    (h : a < out.get_line i + left ∨ out.get_line i + right ≤ a) :
    SobelFilter.process magnitude f inb out i left right m a = m a :=
  forLoop_store_frame_tile (out.get_line i) _ left right m a h

/-- Masked Merge writes only the requested span: every address outside columns
`[left, right)` of output row `i` keeps its value. -/
theorem MaskedMergeFilter.masked_merge_process_frame (f : MaskedMergeFilter)
    (in0 in1 in2 out : BufferDescriptor) (i left right : Nat) (m : Mem) (a : Int)
    (h : a < out.get_line i + left ∨ out.get_line i + right ≤ a) :
    MaskedMergeFilter.process f in0 in1 in2 out i left right m a = m a :=
  forLoop_store_frame_tile (out.get_line i) _ left right m a h

/-- Virtual Pad on a tile that starts at or left of the interior (`left ≤ l`): the part of
the interior the tile covers is copied pixel-for-pixel, and nothing outside columns
`[left, right)` of row `i` is written. -/
theorem VirtualPadFilter.process_of_left_le (sw sh l r t b : Nat) (pad : VirtualPadFilter)
    (hsw : sw ≤ UINT_MAX) (hsh : sh ≤ UINT_MAX) (hl : l ≤ UINT_MAX) (hr : r ≤ UINT_MAX)
    (ht : t ≤ UINT_MAX) (hb : b ≤ UINT_MAX)
    (hpad : VirtualPadFilter.new sw sh l r t b = .ok pad)
    (inb out : BufferDescriptor) (m : Mem) (i left right : Nat) (hi1 : t ≤ i)
    (hi2 : i < t + sh) (hll : left ≤ l) (hlr : left ≤ right) (hrw : right ≤ sw + l + r)
    (hdisj : inb.get_line (i - t) + sw ≤ out.get_line i + l ∨
      out.get_line i + l + sw ≤ inb.get_line (i - t)) :
    (∀ j, l ≤ j → j < min right (l + sw) →
        out.sample (pad.process inb out i left right m) i j = inb.sample m (i - t) (j - l)) ∧
      (∀ a, a < out.get_line i + left ∨ out.get_line i + right ≤ a →
        pad.process inb out i left right m a = m a) := by
  obtain ⟨hsumW, hsumH, rfl⟩ := VirtualPadFilter.new_ok hsw hsh hl hr ht hb hpad
  have hc := VirtualPadFilter.exact_get_col_deps sw sh l r t b left right hsumW
    (by omega) (by omega)
  rw [VirtualPadFilter.exact_process_interior inb out left right m hsumH hi1 hi2, hc]
  have e1 : (clamp ((left : Int) - l) 0 sw).toNat = 0 := by unfold clamp; omega
  have e2 : usub (clamp ((right : Int) - l) 0 sw).toNat 0 =
      (clamp ((right : Int) - l) 0 sw).toNat := by
    unfold usub clamp UINT_MAX at *; omega
  simp only [e1, e2]
  constructor
  · intro j hj1 hj2
    unfold BufferDescriptor.sample
    rw [copy_n_read _ _ _ _ _ (by unfold clamp; omega) (by omega) (by unfold clamp; omega)]
    apply congrArg m
    omega
  · intro a ha
    apply copy_n_frame
    unfold clamp
    omega
theorem copy_n_apply (first : Int) (count : Nat) (result : Int) (m : Mem) (a : Int)
    (hov : result ≤ first ∨ first + count ≤ result) :
    copy_n first count result m a =
      if result ≤ a ∧ a < result + count then m (first + (a - result)) else m a := by
  split
  · rename_i h
    exact copy_n_read first count result m a hov h.1 h.2
  · rename_i h
    exact copy_n_frame first count result m a (by omega)

/-- Overlay on a row inside `[y0, y1)` and a tile that meets or touches the rectangle's
columns (`x0 ≤ right` and `left ≤ x1`), so that no span length wraps: every column of the
tile receives the overlay sample inside `[x0, x1)` and the base sample outside, and nothing
outside columns `[left, right)` of row `i` is written, whether the output row is the base
row itself or a row disjoint from both inputs. -/
theorem OverlayFilter.process_of_meets (width height x0 x1 y0 y1 : Nat) (hx : x0 ≤ x1)
    (hW : width ≤ UINT_MAX) (in0 in1 out : BufferDescriptor) (m : Mem)
    (i left right : Nat) (hy0 : y0 ≤ i) (hy1 : i < y1) (hlr : left ≤ right)
    (hrw : right ≤ width) (hm0 : x0 ≤ right) (hm1 : left ≤ x1)
    (h1 : in1.get_line i + width ≤ out.get_line i ∨
      out.get_line i + width ≤ in1.get_line i)
    (h0 : out.get_line i = in0.get_line i ∨ in0.get_line i + width ≤ out.get_line i ∨
      out.get_line i + width ≤ in0.get_line i) :
    (∀ j, left ≤ j → j < right →
        out.sample
            ((OverlayFilter.new width height x0 x1 y0 y1).process in0 in1 out i left right m)
            i j =
          if x0 ≤ j ∧ j < x1 then in1.sample m i j else in0.sample m i j) ∧
      (∀ a, a < out.get_line i + left ∨ out.get_line i + right ≤ a →
        (OverlayFilter.new width height x0 x1 y0 y1).process in0 in1 out i left right m a =
          m a) := by
  have c1 : usub (min right x1) (max left x0) = min right x1 - max left x0 := by
    unfold usub UINT_MAX at *; omega
  have c0 : usub (min right x0) (min left x0) = min right x0 - min left x0 := by
    unfold usub UINT_MAX at *; omega
  have c2 : usub (max right x1) (max left x1) = max right x1 - max left x1 := by
    unfold usub UINT_MAX at *; omega
  unfold OverlayFilter.process BufferDescriptor.sample
  simp only [OverlayFilter.new]
  rw [if_neg (by omega)]
  by_cases halias : out.get_line i = in0.get_line i
  · rw [if_pos halias, c1]
    constructor
    · intro j hj1 hj2
      rw [copy_n_apply _ _ _ _ _ (by omega)]
      by_cases hin : x0 ≤ j ∧ j < x1
      · rw [if_pos hin, if_pos (by omega)]
        apply congrArg m; omega
      · rw [if_neg hin, if_neg (by omega), halias]
    · intro a ha
      exact copy_n_frame _ _ _ _ _ (by omega)
  · rw [if_neg halias, c0, c1, c2]
    have h0d : in0.get_line i + width ≤ out.get_line i ∨
        out.get_line i + width ≤ in0.get_line i := by
      rcases h0 with h | h
      · exact absurd h halias
      · exact h
    constructor
    · intro j hj1 hj2
      rw [copy_n_apply _ _ _ _ _ (by omega)]
      by_cases hj : x1 ≤ j
      · rw [if_pos (by omega), if_neg (by omega)]
        rw [copy_n_frame _ _ _ _ _ (by omega), copy_n_frame _ _ _ _ _ (by omega)]
        apply congrArg m; omega
      · rw [if_neg (by omega)]
        rw [copy_n_apply _ _ _ _ _ (by omega)]
        by_cases hj0 : x0 ≤ j
        · rw [if_pos (by omega), if_pos (by omega)]
          rw [copy_n_frame _ _ _ _ _ (by omega)]
          apply congrArg m; omega
        · rw [if_neg (by omega), if_neg (by omega)]
          rw [copy_n_read _ _ _ _ _ (by omega) (by omega) (by omega)]
          apply congrArg m; omega
    · intro a ha
      rw [copy_n_frame _ _ _ _ _ (by omega), copy_n_frame _ _ _ _ _ (by omega),
        copy_n_frame _ _ _ _ _ (by omega)]

/-- Overlay on a row inside `[y0, y1)`, split at a column `mid` inside `[x0, x1]` (so that
both sub-tiles meet the rectangle and no span length wraps): the two calls on
`[left, mid)` and `[mid, right)` leave the memory exactly as the one call on
`[left, right)` does. -/
theorem OverlayFilter.process_split_of_meets (width height x0 x1 y0 y1 : Nat)
    (hW : width ≤ UINT_MAX) (in0 in1 out : BufferDescriptor) (m : Mem)
    (i left mid right : Nat) (hy0 : y0 ≤ i) (hy1 : i < y1) (hlm : left ≤ mid)
    (hmr : mid ≤ right) (hrw : right ≤ width) (hm0 : x0 ≤ mid) (hm1 : mid ≤ x1)
    (h1 : in1.get_line i + width ≤ out.get_line i ∨
      out.get_line i + width ≤ in1.get_line i)
    (h0 : out.get_line i = in0.get_line i ∨ in0.get_line i + width ≤ out.get_line i ∨
      out.get_line i + width ≤ in0.get_line i) :
    (OverlayFilter.new width height x0 x1 y0 y1).process in0 in1 out i mid right
        ((OverlayFilter.new width height x0 x1 y0 y1).process in0 in1 out i left mid m) =
      (OverlayFilter.new width height x0 x1 y0 y1).process in0 in1 out i left right m := by
  have hx : x0 ≤ x1 := by omega
  obtain ⟨vA, fA⟩ := OverlayFilter.process_of_meets width height x0 x1 y0 y1 hx hW in0 in1
    out m i left mid hy0 hy1 hlm (by omega) hm0 (by omega) h1 h0
  obtain ⟨vB, fB⟩ := OverlayFilter.process_of_meets width height x0 x1 y0 y1 hx hW in0 in1
    out ((OverlayFilter.new width height x0 x1 y0 y1).process in0 in1 out i left mid m)
    i mid right hy0 hy1 hmr hrw (by omega) hm1 h1 h0
  obtain ⟨vC, fC⟩ := OverlayFilter.process_of_meets width height x0 x1 y0 y1 hx hW in0 in1
    out m i left right hy0 hy1 (by omega) hrw (by omega) (by omega) h1 h0
  unfold BufferDescriptor.sample at vA vB vC
  funext a
  by_cases hout : a < out.get_line i + left ∨ out.get_line i + right ≤ a
  · rw [fB a (by omega), fA a (by omega), fC a hout]
  · obtain ⟨j, rfl⟩ : ∃ j : Nat, a = out.get_line i + (j : Int) :=
      ⟨(a - out.get_line i).toNat, by omega⟩
    have hj1 : left ≤ j := by omega
    have hj2 : j < right := by omega
    rw [vC j hj1 hj2]
    by_cases hjm : j < mid
    · rw [fB _ (by omega), vA j hj1 hjm]
    · rw [vB j (by omega) hj2]
      have e1 : (OverlayFilter.new width height x0 x1 y0 y1).process in0 in1 out i left mid m
          (in1.get_line i + (j : Int)) = m (in1.get_line i + (j : Int)) :=
        fA _ (by omega)
      have e0 : (OverlayFilter.new width height x0 x1 y0 y1).process in0 in1 out i left mid m
          (in0.get_line i + (j : Int)) = m (in0.get_line i + (j : Int)) :=
        fA _ (by omega)
      rw [e1, e0]

/-! ## Masked Merge arithmetic -/

theorem MaskedMergeFilter.pixel_eq {mask s1 s2 : Nat} (hm : mask ≤ 255) (h1 : s1 ≤ 255)
    (h2 : s2 ≤ 255) :
    MaskedMergeFilter.pixel mask s1 s2 = (mask * s1 + (255 - mask) * s2 + 127) / 255 ∧
      mask * s1 + (255 - mask) * s2 ≤ 255 * 255 := by
  have b1 : mask * s1 ≤ mask * 255 := Nat.mul_le_mul_left _ h1
  have b2 : (255 - mask) * s2 ≤ (255 - mask) * 255 := Nat.mul_le_mul_left _ h2
  have b3 : mask * 255 + (255 - mask) * 255 = 255 * 255 := by omega
  have e : usub 255 mask = 255 - mask := by unfold usub; omega
  unfold MaskedMergeFilter.pixel
  simp only [e]
  unfold uadd umul
  generalize mask * s1 = p at *
  generalize (255 - mask) * s2 = q at *
  constructor <;> omega

theorem blend_eq {mask : Nat} (s1 s2 : Nat) (hm : mask ≤ 255) :
    blend mask s1 s2 = ((mask * s1 + (255 - mask) * s2 : Nat) : Int) := by
  unfold blend
  push_cast [Nat.cast_sub hm]
  ring

theorem blend_bounds {mask s1 s2 : Nat} (lo hi : Nat) (hm : mask ≤ 255) (hlo1 : lo ≤ s1)
    (hlo2 : lo ≤ s2) (hhi1 : s1 ≤ hi) (hhi2 : s2 ≤ hi) :
    255 * lo ≤ mask * s1 + (255 - mask) * s2 ∧ mask * s1 + (255 - mask) * s2 ≤ 255 * hi := by
  have a1 : mask * lo ≤ mask * s1 := Nat.mul_le_mul_left _ hlo1
  have a2 : (255 - mask) * lo ≤ (255 - mask) * s2 := Nat.mul_le_mul_left _ hlo2
  have a3 : mask * s1 ≤ mask * hi := Nat.mul_le_mul_left _ hhi1
  have a4 : (255 - mask) * s2 ≤ (255 - mask) * hi := Nat.mul_le_mul_left _ hhi2
  have e1 : mask * lo + (255 - mask) * lo = 255 * lo := by
    rw [← Nat.add_mul]; congr 1; omega
  have e2 : mask * hi + (255 - mask) * hi = 255 * hi := by
    rw [← Nat.add_mul]; congr 1; omega
  constructor <;> omega

/-- C14: Masked Merge rounds to the nearest integer.  For byte values `mask, s1, s2` and
`x = mask * s1 + (255 - mask) * s2`, the value `o` the loop computes satisfies
`|255 * o - x| ≤ 127`, every other integer `k` has `|255 * k - x| > |255 * o - x|` (so `o` is
the unique nearest integer to `x / 255`), no `unsigned` operation wraps (`x + 127 < 2 ^ 32`
and `o = (x + 127) div 255`), and `o ≤ 255`, so the byte store does not truncate. -/
theorem MaskedMergeFilter.pixel_rounds_to_nearest (mask s1 s2 : Nat) (hm : mask ≤ 255)
    (h1 : s1 ≤ 255) (h2 : s2 ≤ 255) :
    |255 * (MaskedMergeFilter.pixel mask s1 s2 : Int) - blend mask s1 s2| ≤ 127 ∧
      (∀ k : Int, k ≠ (MaskedMergeFilter.pixel mask s1 s2 : Int) →
        |255 * (MaskedMergeFilter.pixel mask s1 s2 : Int) - blend mask s1 s2| <
          |255 * k - blend mask s1 s2|) ∧
      mask * s1 + (255 - mask) * s2 + 127 < 2 ^ 32 ∧
      MaskedMergeFilter.pixel mask s1 s2 = (mask * s1 + (255 - mask) * s2 + 127) / 255 ∧
      MaskedMergeFilter.pixel mask s1 s2 ≤ 255 ∧
      MaskedMergeFilter.pixel mask s1 s2 % 256 = MaskedMergeFilter.pixel mask s1 s2 := by
  obtain ⟨hp, hx⟩ := MaskedMergeFilter.pixel_eq hm h1 h2
  rw [blend_eq s1 s2 hm, hp]
  generalize mask * s1 + (255 - mask) * s2 = x at *
  have hnear : |255 * (((x + 127) / 255 : Nat) : Int) - (x : Int)| ≤ 127 := by
    rw [abs_le]; constructor <;> omega
  refine ⟨hnear, ?_, by omega, rfl, by omega, by omega⟩
  intro k hk
  apply lt_of_le_of_lt hnear
  rw [lt_abs]
  rcases lt_or_gt_of_ne hk with h | h
  · right; omega
  · left; omega

/-- Witness for C14: `s1 = 200`, `s2 = 0`, `mask = 128` gives 100. -/
theorem MaskedMergeFilter.pixel_rounds_to_nearest_witness :
    MaskedMergeFilter.pixel 128 200 0 = 100 ∧
      |255 * (MaskedMergeFilter.pixel 128 200 0 : Int) - blend 128 200 0| ≤ 127 :=
  ⟨by decide,
    (MaskedMergeFilter.pixel_rounds_to_nearest 128 200 0 (by decide) (by decide)
      (by decide)).1⟩

/-- C20: the Masked Merge result is a convex blend.  For byte values the computed
`o = (mask * s1 + (255 - mask) * s2 + 127) div 255` lies between `min s1 s2` and
`max s1 s2`; it equals the common value when `s1 = s2`; and for fixed `s1 ≥ s2` it is
monotonically non-decreasing in the mask. -/
theorem MaskedMergeFilter.pixel_convex (mask s1 s2 : Nat) (hm : mask ≤ 255)
    (h1 : s1 ≤ 255) (h2 : s2 ≤ 255) :
    min s1 s2 ≤ MaskedMergeFilter.pixel mask s1 s2 ∧
      MaskedMergeFilter.pixel mask s1 s2 ≤ max s1 s2 ∧
      (s1 = s2 → MaskedMergeFilter.pixel mask s1 s2 = s1) ∧
      (∀ mask2, mask ≤ mask2 → mask2 ≤ 255 → s2 ≤ s1 →
        MaskedMergeFilter.pixel mask s1 s2 ≤ MaskedMergeFilter.pixel mask2 s1 s2) := by
  obtain ⟨hp, _⟩ := MaskedMergeFilter.pixel_eq hm h1 h2
  obtain ⟨hlo, hhi⟩ := blend_bounds (min s1 s2) (max s1 s2) hm
    (Nat.min_le_left _ _) (Nat.min_le_right _ _) (Nat.le_max_left _ _)
    (Nat.le_max_right _ _)
  refine ⟨?_, ?_, ?_, ?_⟩
  · rw [hp]
    generalize mask * s1 + (255 - mask) * s2 = x at *
    omega
  · rw [hp]
    generalize mask * s1 + (255 - mask) * s2 = x at *
    omega
  · intro hs
    rw [hp]
    generalize mask * s1 + (255 - mask) * s2 = x at *
    omega
  · intro mask2 hmm hm2 hs
    obtain ⟨hp2, _⟩ := MaskedMergeFilter.pixel_eq hm2 h1 h2
    rw [hp, hp2]
    apply Nat.div_le_div_right
    have key : mask * s1 + (255 - mask) * s2 ≤ mask2 * s1 + (255 - mask2) * s2 := by
      zify [hm, hm2]
      have hprod : (0 : Int) ≤ ((mask2 : Int) - mask) * ((s1 : Int) - s2) :=
        mul_nonneg (by omega) (by omega)
      nlinarith
    omega

/-- Witness for C20: mask 128 blends 200 and 0 to 100, and mask 255 does not give less. -/
theorem MaskedMergeFilter.pixel_convex_witness :
    min 200 0 ≤ MaskedMergeFilter.pixel 128 200 0 ∧
      MaskedMergeFilter.pixel 128 200 0 ≤ MaskedMergeFilter.pixel 255 200 0 :=
  have h := MaskedMergeFilter.pixel_convex 128 200 0 (by decide) (by decide) (by decide)
  ⟨h.1, h.2.2.2 255 (by decide) (by decide) (by decide)⟩

/-! ## Ring-buffer row addressing -/

theorem mod_ne_of_window {n a i i2 : Nat} (h1 : a ≤ i) (h2 : i < i2)
    (h3 : i2 < a + n) : i % n ≠ i2 % n := by
  intro h
  have hd : n ∣ i2 - i := (Nat.modEq_iff_dvd' (Nat.le_of_lt h2)).1 h
  have hle : n ≤ i2 - i := Nat.le_of_dvd (by omega) hd
  omega

/-- C17: ring-buffer row addressing.  `get_line i` is the address `(i AND mask) * stride`
bytes from the base pointer.  For `mask = 2 ^ k - 1` with `k < 32` the offset is
`(i mod 2 ^ k) * stride`, rows `i` and `i + 2 ^ k` resolve to the same address, and two
different rows inside any window of `2 ^ k` consecutive indices resolve to different
physical rows (and to different addresses when the stride is not zero).  For the all-ones
mask `BUFFER_MAX` the offset is `i * stride` for every 32-bit `i`. -/
theorem BufferDescriptor.get_line_ring (b : BufferDescriptor) (i : Nat) :
    b.get_line i = b.ptr + ((i &&& b.mask : Nat) : Int) * b.stride ∧
      (∀ k, k < 32 → b.mask = 2 ^ k - 1 →
        b.get_line i = b.ptr + ((i % 2 ^ k : Nat) : Int) * b.stride ∧
          b.get_line (i + 2 ^ k) = b.get_line i ∧
          ∀ a i2, a ≤ i → i < i2 → i2 < a + 2 ^ k →
            i &&& b.mask ≠ i2 &&& b.mask ∧
              (b.stride ≠ 0 → b.get_line i ≠ b.get_line i2)) ∧
      (b.mask = BUFFER_MAX → i ≤ UINT_MAX → b.get_line i = b.ptr + (i : Int) * b.stride) := by
  refine ⟨rfl, ?_, ?_⟩
  · intro k _ hmask
    have hland : ∀ x : Nat, x &&& b.mask = x % 2 ^ k := by
      intro x
      rw [hmask]
      exact Nat.and_pow_two_sub_one_eq_mod x k
    refine ⟨?_, ?_, ?_⟩
    · unfold BufferDescriptor.get_line
      rw [hland]
    · unfold BufferDescriptor.get_line
      rw [hland, hland, Nat.add_mod_right]
    · intro a i2 h1 h2 h3
      have hne : i % 2 ^ k ≠ i2 % 2 ^ k := mod_ne_of_window h1 h2 h3
      refine ⟨by rw [hland, hland]; exact hne, ?_⟩
      intro hs heq
      unfold BufferDescriptor.get_line at heq
      rw [hland, hland] at heq
      have h4 : ((i % 2 ^ k : Nat) : Int) * b.stride =
          ((i2 % 2 ^ k : Nat) : Int) * b.stride := by
        linarith
      have h5 := mul_right_cancel₀ hs h4
      exact hne (by exact_mod_cast h5)
  · intro hmask hi
    exact BufferDescriptor.get_line_of_mask hmask hi

/-- Witness for C17: a four-row ring (`mask = 3`) with stride 16 at address 1000; rows 1
and 5 share an address, rows 1 and 2 do not. -/
theorem BufferDescriptor.get_line_ring_witness :
    ({ ptr := 1000, stride := 16, mask := 3 } : BufferDescriptor).get_line (1 + 2 ^ 2) =
        ({ ptr := 1000, stride := 16, mask := 3 } : BufferDescriptor).get_line 1 ∧
      ({ ptr := 1000, stride := 16, mask := 3 } : BufferDescriptor).get_line 1 ≠
        ({ ptr := 1000, stride := 16, mask := 3 } : BufferDescriptor).get_line 2 :=
  have h := (BufferDescriptor.get_line_ring { ptr := 1000, stride := 16, mask := 3 } 1).2.1 2
    (by decide) (by decide)
  ⟨h.2.1, (h.2.2 0 2 (by decide) (by decide) (by decide)).2 (by decide)⟩

/-! ## Masked Merge processing -/

theorem AliasedOrApart.symm {p q : Int} {left right : Nat} (h : AliasedOrApart p q left right) :
    AliasedOrApart q p left right := by
  unfold AliasedOrApart at *
  omega

theorem AliasedOrApart.refl (p : Int) (left right : Nat) : AliasedOrApart p p left right :=
  Or.inl rfl

theorem AliasedOrApart.of_apart {p q : Int} {left right : Nat}
    (h : p + right ≤ q + left ∨ q + right ≤ p + left) : AliasedOrApart p q left right :=
  Or.inr h

/-- The byte Masked Merge leaves at column `j` of the tile is the blend of the three input
bytes at column `j` of the initial memory, whenever every input row is the output row
itself or lies apart from the output span. -/
theorem MaskedMergeFilter.masked_merge_process_read (f : MaskedMergeFilter)
    (in0 in1 in2 out : BufferDescriptor) (i left right : Nat) (m : Mem) (j : Nat)
    (hj1 : left ≤ j) (hj2 : j < right)
    (a0 : AliasedOrApart (in0.get_line i) (out.get_line i) left right)
    (a1 : AliasedOrApart (in1.get_line i) (out.get_line i) left right)
    (a2 : AliasedOrApart (in2.get_line i) (out.get_line i) left right) :
    MaskedMergeFilter.process f in0 in1 in2 out i left right m (out.get_line i + (j : Int)) =
      MaskedMergeFilter.pixel (m (in2.get_line i + (j : Int))) (m (in0.get_line i + (j : Int)))
        (m (in1.get_line i + (j : Int))) % 256 := by
  unfold MaskedMergeFilter.process
  unfold AliasedOrApart at a0 a1 a2
  rw [forLoop_store_read (out.get_line i) _ (right - left) (left : Int) m (j : Int)
    (by omega) (by omega)]
  intro m2 hm2
  rw [hm2 (in2.get_line i + (j : Int)) (by omega), hm2 (in0.get_line i + (j : Int)) (by omega),
    hm2 (in1.get_line i + (j : Int)) (by omega)]

/-- C13: Masked Merge endpoints are exact.  For byte values the per-pixel result is `s1`
when the mask is 255 and `s2` when the mask is 0; hence, on byte memory, a mask row that is
255 over the processed span makes `process` reproduce `src1` there and a mask row that is 0
makes it reproduce `src2`, whether or not the output row is one of the input rows. -/
theorem MaskedMergeFilter.endpoints_exact (f : MaskedMergeFilter)
    (in0 in1 in2 out : BufferDescriptor) (i left right : Nat) (m : Mem)
    (hbyte : ∀ a, m a < 256)
    (a0 : AliasedOrApart (in0.get_line i) (out.get_line i) left right)
    (a1 : AliasedOrApart (in1.get_line i) (out.get_line i) left right)
    (a2 : AliasedOrApart (in2.get_line i) (out.get_line i) left right) :
    (∀ s1 s2, s1 ≤ 255 → s2 ≤ 255 →
        MaskedMergeFilter.pixel 255 s1 s2 = s1 ∧ MaskedMergeFilter.pixel 0 s1 s2 = s2) ∧
      ((∀ j, left ≤ j → j < right → in2.sample m i j = 255) →
        ∀ j, left ≤ j → j < right →
          out.sample (MaskedMergeFilter.process f in0 in1 in2 out i left right m) i j =
            in0.sample m i j) ∧
      ((∀ j, left ≤ j → j < right → in2.sample m i j = 0) →
        ∀ j, left ≤ j → j < right →
          out.sample (MaskedMergeFilter.process f in0 in1 in2 out i left right m) i j =
            in1.sample m i j) := by
  have hpix : ∀ s1 s2, s1 ≤ 255 → s2 ≤ 255 →
      MaskedMergeFilter.pixel 255 s1 s2 = s1 ∧ MaskedMergeFilter.pixel 0 s1 s2 = s2 := by
    intro s1 s2 h1 h2
    constructor
    · rw [(MaskedMergeFilter.pixel_eq (by decide) h1 h2).1]; omega
    · rw [(MaskedMergeFilter.pixel_eq (by decide) h1 h2).1]; omega
  refine ⟨hpix, ?_, ?_⟩
  · intro hmask j hj1 hj2
    have hm := hmask j hj1 hj2
    unfold BufferDescriptor.sample at *
    have b0 := hbyte (in0.get_line i + (j : Int))
    have b1 := hbyte (in1.get_line i + (j : Int))
    rw [MaskedMergeFilter.masked_merge_process_read f in0 in1 in2 out i left right m j hj1
        hj2 a0 a1 a2,
      hm, (hpix _ _ (by omega) (by omega)).1]
    omega
  · intro hmask j hj1 hj2
    have hm := hmask j hj1 hj2
    unfold BufferDescriptor.sample at *
    have b0 := hbyte (in0.get_line i + (j : Int))
    have b1 := hbyte (in1.get_line i + (j : Int))
    rw [MaskedMergeFilter.masked_merge_process_read f in0 in1 in2 out i left right m j hj1
        hj2 a0 a1 a2,
      hm, (hpix _ _ (by omega) (by omega)).2]
    omega

/-- C15: Masked Merge is safe in place.  With input rows that pairwise coincide or lie
apart, and a separate output buffer `sep` whose span lies apart from every input row,
running `process` with the output buffer being `in[0]`, `in[1]` or `in[2]` leaves in every
column `j` of the tile the byte the run into `sep` leaves there, and that byte is the blend
of the three initial input bytes at column `j`. -/
theorem MaskedMergeFilter.in_place_eq_separate (f : MaskedMergeFilter)
    (in0 in1 in2 sep : BufferDescriptor) (i left right : Nat) (m : Mem)
    (h01 : AliasedOrApart (in0.get_line i) (in1.get_line i) left right)
    (h02 : AliasedOrApart (in0.get_line i) (in2.get_line i) left right)
    (h12 : AliasedOrApart (in1.get_line i) (in2.get_line i) left right)
    (s0 : in0.get_line i + right ≤ sep.get_line i + left ∨
      sep.get_line i + right ≤ in0.get_line i + left)
    (s1 : in1.get_line i + right ≤ sep.get_line i + left ∨
      sep.get_line i + right ≤ in1.get_line i + left)
    (s2 : in2.get_line i + right ≤ sep.get_line i + left ∨
      sep.get_line i + right ≤ in2.get_line i + left)
    (j : Nat) (hj1 : left ≤ j) (hj2 : j < right) :
    (sep.sample (MaskedMergeFilter.process f in0 in1 in2 sep i left right m) i j =
        MaskedMergeFilter.pixel (in2.sample m i j) (in0.sample m i j) (in1.sample m i j)
          % 256) ∧
      (in0.sample (MaskedMergeFilter.process f in0 in1 in2 in0 i left right m) i j =
        sep.sample (MaskedMergeFilter.process f in0 in1 in2 sep i left right m) i j) ∧
      (in1.sample (MaskedMergeFilter.process f in0 in1 in2 in1 i left right m) i j =
        sep.sample (MaskedMergeFilter.process f in0 in1 in2 sep i left right m) i j) ∧
      (in2.sample (MaskedMergeFilter.process f in0 in1 in2 in2 i left right m) i j =
        sep.sample (MaskedMergeFilter.process f in0 in1 in2 sep i left right m) i j) := by
  unfold BufferDescriptor.sample
  have hs := MaskedMergeFilter.masked_merge_process_read f in0 in1 in2 sep i left right m j hj1 hj2
    (.of_apart s0) (.of_apart s1) (.of_apart s2)
  refine ⟨hs, ?_, ?_, ?_⟩
  · rw [hs, MaskedMergeFilter.masked_merge_process_read f in0 in1 in2 in0 i left right m j hj1 hj2
      (.refl _ _ _) h01.symm h02.symm]
  · rw [hs, MaskedMergeFilter.masked_merge_process_read f in0 in1 in2 in1 i left right m j hj1 hj2
      h01 (.refl _ _ _) h12.symm]
  · rw [hs, MaskedMergeFilter.masked_merge_process_read f in0 in1 in2 in2 i left right m j hj1 hj2
      h02 h12 (.refl _ _ _)]

theorem exampleMergeMem_lt (a : Int) : exampleMergeMem a < 256 := by
  unfold exampleMergeMem
  split_ifs <;> omega

/-- Witness for C13: `src1` all 200, `src2` all 0 and a mask row of 255, merged into a
separate output row over the tile `[0, 4)`. -/
theorem MaskedMergeFilter.endpoints_exact_witness :
    exampleOut.sample
        (MaskedMergeFilter.process (MaskedMergeFilter.new 4 1) exampleBase exampleOverlay
          exampleMaskFull exampleOut 0 0 4 exampleMergeMem) 0 1 =
      exampleBase.sample exampleMergeMem 0 1 :=
  (MaskedMergeFilter.endpoints_exact (MaskedMergeFilter.new 4 1) exampleBase exampleOverlay
    exampleMaskFull exampleOut 0 0 4 exampleMergeMem exampleMergeMem_lt
    (by unfold AliasedOrApart; decide) (by unfold AliasedOrApart; decide)
    (by unfold AliasedOrApart; decide)).2.1
    (fun j _ hj => by interval_cases j <;> decide) 1 (by decide) (by decide)

/-- Witness for C15: `src1` all 200, `src2` all 0, mask all 128, tile `[0, 4)`: writing
into `src1` itself gives at column 2 the byte the separate output gets. -/
theorem MaskedMergeFilter.in_place_eq_separate_witness :
    exampleBase.sample
        (MaskedMergeFilter.process (MaskedMergeFilter.new 4 1) exampleBase exampleOverlay
          exampleMaskHalf exampleBase 0 0 4 exampleMergeMem) 0 2 =
      exampleOut.sample
        (MaskedMergeFilter.process (MaskedMergeFilter.new 4 1) exampleBase exampleOverlay
          exampleMaskHalf exampleOut 0 0 4 exampleMergeMem) 0 2 :=
  (MaskedMergeFilter.in_place_eq_separate (MaskedMergeFilter.new 4 1) exampleBase
    exampleOverlay exampleMaskHalf exampleOut 0 0 4 exampleMergeMem
    (by unfold AliasedOrApart; decide) (by unfold AliasedOrApart; decide)
    (by unfold AliasedOrApart; decide) (by decide) (by decide) (by decide) 2 (by decide)
    (by decide)).2.1

/-! ## Overlay: rows outside the rectangle -/

theorem OverlayFilter.process_outside_eq (width height x0 x1 y0 y1 : Nat)
    (in0 in1 out : BufferDescriptor) (m : Mem) (i left right : Nat)
    (hrow : i < y0 ∨ y1 ≤ i) (hlr : left ≤ right) (hr : right ≤ UINT_MAX) :
    (OverlayFilter.new width height x0 x1 y0 y1).process in0 in1 out i left right m =
      if out.get_line i ≠ in0.get_line i then
        copy_n (in0.get_line i + left) (right - left) (out.get_line i + left) m
      else m := by
  have e : usub right left = right - left := by unfold usub UINT_MAX at *; omega
  unfold OverlayFilter.process
  simp only [OverlayFilter.new]
  rw [if_pos (by omega), e]

/-- C16: Overlay passes rows outside the rectangle through.  On a row `i` with `i < y0` or
`i ≥ y1` and a tile `left ≤ right ≤ width`: `process` is exactly one `copy_n` of the base
row's columns `[left, right)` when the output row is not the base row, and the identity
when it is; in either case every column of the tile then holds the base sample, with a
separate output row nothing outside the tile is written, and the result is the same
whatever the overlay input buffer is (it is never read). -/
theorem OverlayFilter.process_passes_outside_rows (width height x0 x1 y0 y1 : Nat)
    (hW : width ≤ UINT_MAX) (in0 in1 out : BufferDescriptor) (m : Mem)
    (i left right : Nat) (hrow : i < y0 ∨ y1 ≤ i) (hlr : left ≤ right)
    (hrw : right ≤ width) :
    ((in0.get_line i + width ≤ out.get_line i ∨ out.get_line i + width ≤ in0.get_line i) →
        (OverlayFilter.new width height x0 x1 y0 y1).process in0 in1 out i left right m =
            copy_n (in0.get_line i + left) (right - left) (out.get_line i + left) m ∧
          (∀ j, left ≤ j → j < right →
            out.sample
                ((OverlayFilter.new width height x0 x1 y0 y1).process in0 in1 out i left right
                  m) i j = in0.sample m i j) ∧
          (∀ a, a < out.get_line i + left ∨ out.get_line i + right ≤ a →
            (OverlayFilter.new width height x0 x1 y0 y1).process in0 in1 out i left right m a =
              m a)) ∧
      (out.get_line i = in0.get_line i →
        (OverlayFilter.new width height x0 x1 y0 y1).process in0 in1 out i left right m = m ∧
          ∀ j, left ≤ j → j < right →
            out.sample
                ((OverlayFilter.new width height x0 x1 y0 y1).process in0 in1 out i left right
                  m) i j = in0.sample m i j) ∧
      (∀ other : BufferDescriptor,
        (OverlayFilter.new width height x0 x1 y0 y1).process in0 other out i left right m =
          (OverlayFilter.new width height x0 x1 y0 y1).process in0 in1 out i left right m) := by
  have hr : right ≤ UINT_MAX := by omega
  refine ⟨?_, ?_, ?_⟩
  · intro hsep
    have hproc : (OverlayFilter.new width height x0 x1 y0 y1).process in0 in1 out i left right
        m = copy_n (in0.get_line i + left) (right - left) (out.get_line i + left) m := by
      rw [OverlayFilter.process_outside_eq width height x0 x1 y0 y1 in0 in1 out m i left right
        hrow hlr hr]
      split
      · rfl
      · rename_i heq
        have e0 : right - left = 0 := by omega
        rw [e0]
        rfl
    rw [hproc]
    refine ⟨rfl, ?_, ?_⟩
    · intro j hj1 hj2
      unfold BufferDescriptor.sample
      rw [copy_n_read _ _ _ _ _ (by omega) (by omega) (by omega)]
      apply congrArg m
      omega
    · intro a ha
      exact copy_n_frame _ _ _ _ _ (by omega)
  · intro halias
    have e : (OverlayFilter.new width height x0 x1 y0 y1).process in0 in1 out i left right m =
        m := by
      rw [OverlayFilter.process_outside_eq width height x0 x1 y0 y1 in0 in1 out m i left
        right hrow hlr hr, if_neg (by simpa using halias)]
    refine ⟨e, ?_⟩
    intro j _ _
    unfold BufferDescriptor.sample
    rw [e, halias]
  · intro other
    rw [OverlayFilter.process_outside_eq width height x0 x1 y0 y1 in0 other out m i left right
        hrow hlr hr,
      OverlayFilter.process_outside_eq width height x0 x1 y0 y1 in0 in1 out m i left right
        hrow hlr hr]

/-- Witness for C16: a 4 x 2 overlay with rectangle rows `[1, 2)`; row 0 lies outside and
the separate output row receives the base row `10, 11, 12, 13` on the tile `[1, 4)`. -/
theorem OverlayFilter.process_passes_outside_rows_witness :
    exampleOut.sample
        ((OverlayFilter.new 4 2 0 1 1 2).process exampleBase exampleOverlay exampleOut 0 1 4
          exampleMem) 0 2 = exampleBase.sample exampleMem 0 2 ∧
      exampleBase.sample exampleMem 0 2 = 12 :=
  ⟨((OverlayFilter.process_passes_outside_rows 4 2 0 1 1 2 (by decide) exampleBase
      exampleOverlay exampleOut exampleMem 0 1 4 (by decide) (by decide) (by decide)).1
      (by decide)).2.1 2 (by decide) (by decide), by decide⟩

/-! ## What the stencils read -/

theorem Spatial3x3Filter.stencilRows_eq_rowsRead (f : Spatial3x3Filter)
    (inb : BufferDescriptor) (i : Nat) :
    [(f.stencilRows inb i).1, (f.stencilRows inb i).2.1, (f.stencilRows inb i).2.2] =
      (f.rowsRead i).map inb.get_line :=
  rfl

theorem Spatial3x3Filter.rowsRead_eq {width height i : Nat} (hi : i < height)
    (hH : height ≤ UINT_MAX) :
    (Spatial3x3Filter.new width height).rowsRead i = [i - 1, i, min (i + 1) (height - 1)] := by
  unfold Spatial3x3Filter.rowsRead
  rw [Spatial3x3Filter.get_row_deps_eq hi hH]
  have e : usub (min (i + 2) height) 1 = min (i + 1) (height - 1) := by
    unfold usub UINT_MAX at *; omega
  simp only [e]

theorem Spatial3x3Filter.mem_colsRead {width height left right : Nat} (hw : 1 ≤ width)
    (hW : width ≤ UINT_MAX) (c : Int) :
    c ∈ (Spatial3x3Filter.new width height).colsRead left right ↔
      ∃ j : Nat, left ≤ j ∧ j < right ∧
        (c = ((j - 1 : Nat) : Int) ∨ c = (j : Int) ∨
          c = ((min (j + 1) (width - 1) : Nat) : Int)) := by
  unfold Spatial3x3Filter.colsRead
  simp only [List.mem_flatMap, List.mem_range, List.mem_cons, List.mem_singleton,
    List.not_mem_nil, or_false]
  constructor
  · rintro ⟨k, hk, hc⟩
    have e : ((left : Int) + (k : Int)) = ((left + k : Nat) : Int) := by push_cast; rfl
    rw [e, Spatial3x3Filter.stencilCols_eq (left + k) hw hW] at hc
    exact ⟨left + k, by omega, by omega, hc⟩
  · rintro ⟨j, hj1, hj2, hc⟩
    refine ⟨j - left, by omega, ?_⟩
    have e : ((left : Int) + ((j - left : Nat) : Int)) = ((j : Nat) : Int) := by omega
    rw [e, Spatial3x3Filter.stencilCols_eq j hw hW]
    exact hc

/-- C19: Box Blur and Sobel read only inside their declared windows.  On a `w x h` plane
(`w, h ≥ 1`), for an output row `i < h` and a tile `left < right ≤ w`: the three row
indices `process` uses (`range.first`, `i`, `range.second - 1`, these being the rows of the
pointers `y0, y1, y2`) lie in `get_row_deps i` and below `h`, `range.second ≥ 1` so the
subtraction does not wrap, and every column index read lies in `get_col_deps left right`
and in `[0, w)`. -/
theorem Spatial3x3Filter.reads_within_windows (w h : Nat) (hw : 1 ≤ w) (hh : 1 ≤ h)
    (hW : w ≤ UINT_MAX) (hH : h ≤ UINT_MAX) (inb : BufferDescriptor) (i left right : Nat)
    (hi : i < h) (hlr : left < right) (hrw : right ≤ w) :
    [((Spatial3x3Filter.new w h).stencilRows inb i).1,
        ((Spatial3x3Filter.new w h).stencilRows inb i).2.1,
        ((Spatial3x3Filter.new w h).stencilRows inb i).2.2] =
      ((Spatial3x3Filter.new w h).rowsRead i).map inb.get_line ∧
    (∀ r ∈ (Spatial3x3Filter.new w h).rowsRead i,
      ((Spatial3x3Filter.new w h).get_row_deps i).1 ≤ r ∧
        r < ((Spatial3x3Filter.new w h).get_row_deps i).2 ∧ r < h) ∧
    1 ≤ ((Spatial3x3Filter.new w h).get_row_deps i).2 ∧
    (∀ c ∈ (Spatial3x3Filter.new w h).colsRead left right,
      (((Spatial3x3Filter.new w h).get_col_deps left right).1 : Int) ≤ c ∧
        c < (((Spatial3x3Filter.new w h).get_col_deps left right).2 : Int) ∧
        0 ≤ c ∧ c < (w : Int)) := by
  have _hpos : 1 ≤ h ∧ left < right := ⟨hh, hlr⟩
  refine ⟨rfl, ?_, ?_, ?_⟩
  · intro r hr
    rw [Spatial3x3Filter.rowsRead_eq hi hH] at hr
    rw [Spatial3x3Filter.get_row_deps_eq hi hH]
    simp only [List.mem_cons, List.mem_singleton, List.not_mem_nil, or_false] at hr
    simp only
    omega
  · rw [Spatial3x3Filter.get_row_deps_eq hi hH]
    simp only
    omega
  · intro c hc
    rw [Spatial3x3Filter.mem_colsRead hw hW] at hc
    obtain ⟨j, hj1, hj2, hc⟩ := hc
    rw [Spatial3x3Filter.get_col_deps_eq (by omega) hrw hW]
    simp only
    omega

/-- Witness for C19: the 4 x 1 plane, row 0, tile `[1, 3)`. -/
theorem Spatial3x3Filter.reads_within_windows_witness :
    (Spatial3x3Filter.new 4 1).rowsRead 0 = [0, 0, 0] ∧
      ∀ c ∈ (Spatial3x3Filter.new 4 1).colsRead 1 3,
        (((Spatial3x3Filter.new 4 1).get_col_deps 1 3).1 : Int) ≤ c ∧
          c < (((Spatial3x3Filter.new 4 1).get_col_deps 1 3).2 : Int) ∧ 0 ≤ c ∧
          c < (4 : Int) :=
  ⟨by decide,
    (Spatial3x3Filter.reads_within_windows 4 1 (by decide) (by decide) (by decide)
      (by decide) exampleBase 0 1 3 (by decide) (by decide) (by decide)).2.2.2⟩

/-- The row window of Box Blur / Sobel is minimal: every row of `get_row_deps i` is one of
the three rows `process` reads. -/
theorem Spatial3x3Filter.row_window_minimal (w h : Nat) (hH : h ≤ UINT_MAX) (i : Nat)
    (hi : i < h) (r : Nat) (h1 : ((Spatial3x3Filter.new w h).get_row_deps i).1 ≤ r)
    (h2 : r < ((Spatial3x3Filter.new w h).get_row_deps i).2) :
    r ∈ (Spatial3x3Filter.new w h).rowsRead i := by
  rw [Spatial3x3Filter.get_row_deps_eq hi hH] at h1 h2
  rw [Spatial3x3Filter.rowsRead_eq hi hH]
  simp only [List.mem_cons, List.mem_singleton, List.not_mem_nil, or_false]
  simp only at h1 h2
  omega

/-- The columns Box Blur / Sobel read on a tile are exactly
`[max(left, 1) - 1, min(right + 1, w))`: the declared first column, and one column fewer
on the right than `get_col_deps` declares whenever `right + 2 ≤ w`. -/
theorem Spatial3x3Filter.mem_colsRead_iff (w h : Nat) (hw : 1 ≤ w) (hW : w ≤ UINT_MAX)
    (left right : Nat) (hlr : left < right) (hrw : right ≤ w) (c : Int) :
    c ∈ (Spatial3x3Filter.new w h).colsRead left right ↔
      (((Spatial3x3Filter.new w h).get_col_deps left right).1 : Int) ≤ c ∧
        c < ((min (right + 1) w : Nat) : Int) := by
  rw [Spatial3x3Filter.mem_colsRead hw hW, Spatial3x3Filter.get_col_deps_eq (by omega) hrw hW]
  simp only
  constructor
  · rintro ⟨j, hj1, hj2, hc⟩
    omega
  · rintro ⟨h1, h2⟩
    by_cases hc : c < (left : Int)
    · exact ⟨left, le_refl _, hlr, Or.inl (by omega)⟩
    · by_cases hc2 : c < (right : Int)
      · exact ⟨c.toNat, by omega, by omega, Or.inr (Or.inl (by omega))⟩
      · exact ⟨right - 1, by omega, by omega, Or.inr (Or.inr (by omega))⟩

/-- C18, evaluated on the code: Box Blur / Sobel on a 4 x 1 plane, row 0, tile `[0, 1)`.
`get_col_deps 0 1 = (0, 3)` declares columns 0, 1, 2, but `process` reads only the columns
`max(0 - 1, 0) = 0`, `0` and `min(0 + 1, 3) = 1`: column 2 lies in the window and is never
read.  The row window `(0, 1)` is read in full. -/
theorem Spatial3x3Filter.col_window_not_minimal :
    (Spatial3x3Filter.new 4 1).get_col_deps 0 1 = (0, 3) ∧
      (Spatial3x3Filter.new 4 1).colsRead 0 1 = [0, 0, 1] ∧
      (2 : Int) ∉ (Spatial3x3Filter.new 4 1).colsRead 0 1 ∧
      (Spatial3x3Filter.new 4 1).get_row_deps 0 = (0, 1) ∧
      (Spatial3x3Filter.new 4 1).rowsRead 0 = [0, 0, 0] := by
  refine ⟨by decide, by decide, by decide, by decide, by decide⟩

/-! ## Constant planes -/

/-- Invariant rule for the row loop: `inv` is kept by every call, every call establishes
`good` for its own row, and later calls keep `good` for the rows already done. -/
theorem forRows_rows (body : Nat → Mem → Mem) (h : Nat) (inv : Mem → Prop)
    (good : Nat → Mem → Prop)
    (hinv : ∀ n m, n < h → inv m → inv (body n m))
    (hgood : ∀ n m, n < h → inv m → good n (body n m))
    (hkeep : ∀ n k m, n < h → k < n → inv m → good k m → good k (body n m))
    (m : Mem) (hm : inv m) (n : Nat) (hn : n ≤ h) :
    inv (forRows body n m) ∧ ∀ k, k < n → good k (forRows body n m) := by
  induction n with
  | zero => exact ⟨hm, fun k hk => absurd hk (Nat.not_lt_zero k)⟩
  | succ n ih =>
    obtain ⟨h1, h2⟩ := ih (by omega)
    refine ⟨hinv n _ (by omega) h1, ?_⟩
    intro k hk
    rcases Nat.lt_or_ge k n with hlt | hge
    · exact hkeep n k _ (by omega) hlt h1 (h2 k hlt)
    · have e : k = n := by omega
      subst e
      exact hgood k _ (by omega) h1

theorem replicated_const (inb : BufferDescriptor) {m : Mem} {w h v : Nat} (hw : 1 ≤ w)
    (hh : 1 ≤ h) (hconst : ∀ row col, row < h → col < w → inb.sample m row col = v)
    (a c : Nat) : replicated inb m w h a c = v := by
  unfold replicated
  apply hconst
  · unfold clamp; omega
  · unfold clamp; omega

/-- An input plane and an output plane share no sample address. -/
theorem apart_of_ne {inb out : BufferDescriptor} {w h : Nat}
    (hapart : ∀ r c r2 c2, r < h → c < w → r2 < h → c2 < w →
      inb.get_line r + (c : Int) ≠ out.get_line r2 + (c2 : Int))
    {i : Nat} (hi : i < h) (row col : Nat) (hrow : row < h) (hcol : col < w) :
    inb.get_line row + (col : Int) < out.get_line i + ((0 : Nat) : Int) ∨
      out.get_line i + (w : Int) ≤ inb.get_line row + (col : Int) := by
  by_contra hcon
  have hc2 : (inb.get_line row + (col : Int) - out.get_line i).toNat < w := by omega
  have := hapart row col i _ hrow hcol hi hc2
  omega

/-- The byte Box Blur leaves at column `j` of the tile, for an input plane that the
output span does not overlap. -/
theorem BoxBlurFilter.boxblur_process_read (w h : Nat) (hw : 1 ≤ w) (hh : 1 ≤ h)
    (hW : w ≤ UINT_MAX) (hH : h ≤ UINT_MAX) (inb out : BufferDescriptor) (m : Mem)
    (i left right : Nat) (hi : i < h) (hrw : right ≤ w)
    (hdisj : ∀ row col, row < h → col < w →
      inb.get_line row + (col : Int) < out.get_line i + left ∨
        out.get_line i + right ≤ inb.get_line row + (col : Int))
    (j : Nat) (hj1 : left ≤ j) (hj2 : j < right) :
    BoxBlurFilter.process (Spatial3x3Filter.new w h) inb out i left right m
        (out.get_line i + (j : Int)) =
      (((∑ a ∈ Finset.range 3, ∑ c ∈ Finset.range 3, replicated inb m w h (i + a) (j + c))
        % 2 ^ 32 + 4) % 2 ^ 32 / 9) % 256 := by
  have hjw : j < w := by omega
  unfold BoxBlurFilter.process
  rw [forLoop_store_read (out.get_line i) _ (right - left) (left : Int) m (j : Int)
    (by omega) (by omega)]
  · rw [BoxBlurFilter.accum_eq inb m hw hh hW hH i j hi hjw]
  · intro m2 hm2
    rw [BoxBlurFilter.accum_eq inb m2 hw hh hW hH i j hi hjw,
      BoxBlurFilter.accum_eq inb m hw hh hW hH i j hi hjw]
    have hrep : ∀ a c, replicated inb m2 w h a c = replicated inb m w h a c := by
      apply replicated_congr inb hw hh
      intro row col hrow hcol
      apply hm2
      have := hdisj row col hrow hcol
      omega
    simp only [hrep]

/-- The byte Sobel leaves at column `j` of the tile, for an input plane that the output
span does not overlap. -/
theorem SobelFilter.sobel_process_read (magnitude : Int → Int → Nat) (w h : Nat) (hw : 1 ≤ w)
    (hh : 1 ≤ h) (hW : w ≤ UINT_MAX) (hH : h ≤ UINT_MAX) (inb out : BufferDescriptor)
    (m : Mem) (i left right : Nat) (hi : i < h) (hrw : right ≤ w)
    (hdisj : ∀ row col, row < h → col < w →
      inb.get_line row + (col : Int) < out.get_line i + left ∨
        out.get_line i + right ≤ inb.get_line row + (col : Int))
    (j : Nat) (hj1 : left ≤ j) (hj2 : j < right) :
    SobelFilter.process magnitude (Spatial3x3Filter.new w h) inb out i left right m
        (out.get_line i + (j : Int)) =
      magnitude (applyKernel sobelKernelRows (replicated inb m w h) i j)
        (applyKernel sobelKernelCols (replicated inb m w h) i j) % 256 := by
  have hjw : j < w := by omega
  unfold SobelFilter.process
  rw [forLoop_store_read (out.get_line i) _ (right - left) (left : Int) m (j : Int)
    (by omega) (by omega)]
  · rw [SobelFilter.gx_eq inb m hw hh hW hH i j hi hjw,
      SobelFilter.gy_eq inb m hw hh hW hH i j hi hjw]
  · intro m2 hm2
    rw [SobelFilter.gx_eq inb m2 hw hh hW hH i j hi hjw,
      SobelFilter.gy_eq inb m2 hw hh hW hH i j hi hjw,
      SobelFilter.gx_eq inb m hw hh hW hH i j hi hjw,
      SobelFilter.gy_eq inb m hw hh hW hH i j hi hjw]
    have hrep : ∀ a c, replicated inb m2 w h a c = replicated inb m w h a c := by
      apply replicated_congr inb hw hh
      intro row col hrow hcol
      apply hm2
      have := hdisj row col hrow hcol
      omega
    unfold applyKernel
    simp only [hrep]

theorem applyKernel_const (P : Nat → Nat → Nat) (v : Nat) (hP : ∀ a c, P a c = v)
    (i j : Nat) :
    applyKernel sobelKernelRows P i j = 0 ∧ applyKernel sobelKernelCols P i j = 0 := by
  unfold applyKernel
  simp only [Finset.sum_range_succ, Finset.sum_range_zero, zero_add, sobelKernelRows,
    sobelKernelCols, hP]
  constructor <;> ring

/-- C11: Box Blur preserves constants.  For a `w x h` input plane (`w, h ≥ 1`) whose every
sample is the byte `v`, and a full-height output plane sharing no address with it: each
call `process(i, 0, w)` leaves row `i` of the output all `v`, and processing every row
`0, ..., h - 1` over its full width yields an output plane whose every sample is `v`. -/
theorem BoxBlurFilter.preserves_constant (w h v : Nat) (hw : 1 ≤ w) (hh : 1 ≤ h)
    (hW : w ≤ UINT_MAX) (hH : h ≤ UINT_MAX) (hv : v ≤ 255) (inb out : BufferDescriptor)
    (m : Mem) (hconst : ∀ row col, row < h → col < w → inb.sample m row col = v)
    (hfull : out.FullHeight w)
    (hapart : ∀ r c r2 c2, r < h → c < w → r2 < h → c2 < w →
      inb.get_line r + (c : Int) ≠ out.get_line r2 + (c2 : Int)) :
    (∀ i j, i < h → j < w →
        out.sample (BoxBlurFilter.process (Spatial3x3Filter.new w h) inb out i 0 w m) i j =
          v) ∧
      (∀ i j, i < h → j < w →
        out.sample
            (forRows (fun i m => BoxBlurFilter.process (Spatial3x3Filter.new w h) inb out i 0 w m)
              h m) i j = v) := by
  have hrow : ∀ (m2 : Mem), (∀ row col, row < h → col < w → inb.sample m2 row col = v) →
      ∀ i j, i < h → j < w →
        out.sample (BoxBlurFilter.process (Spatial3x3Filter.new w h) inb out i 0 w m2) i j =
          v := by
    intro m2 hc i j hi hj
    unfold BufferDescriptor.sample
    rw [BoxBlurFilter.boxblur_process_read w h hw hh hW hH inb out m2 i 0 w hi (le_refl _)
      (apart_of_ne hapart hi) j (Nat.zero_le _) hj]
    simp only [Finset.sum_range_succ, Finset.sum_range_zero, zero_add,
      replicated_const inb hw hh hc]
    have e9 : v + v + v + (v + v + v) + (v + v + v) = 9 * v := by ring
    have e1 : 9 * v % 2 ^ 32 = 9 * v := Nat.mod_eq_of_lt (by omega)
    have e2 : (9 * v + 4) % 2 ^ 32 = 9 * v + 4 := Nat.mod_eq_of_lt (by omega)
    have e3 : (9 * v + 4) / 9 = v := by omega
    rw [e9, e1, e2, e3]
    exact Nat.mod_eq_of_lt (by omega)
  refine ⟨hrow m hconst, ?_⟩
  intro i j hi hj
  have key := forRows_rows
    (fun i m => BoxBlurFilter.process (Spatial3x3Filter.new w h) inb out i 0 w m) h
    (fun m2 => ∀ row col, row < h → col < w → inb.sample m2 row col = v)
    (fun k m2 => ∀ c, c < w → out.sample m2 k c = v)
    (by
      intro n m2 hn hc row col hrow2 hcol
      unfold BufferDescriptor.sample
      beta_reduce
      rw [BoxBlurFilter.boxblur_process_frame _ inb out n 0 w m2 _
        (apart_of_ne hapart hn row col hrow2 hcol)]
      exact hc row col hrow2 hcol)
    (by
      intro n m2 hn hc c hcw
      exact hrow m2 hc n c hn hcw)
    (by
      intro n k m2 hn hk _ hg c hcw
      unfold BufferDescriptor.sample
      beta_reduce
      have hd := hfull.row_disjoint k n c (by omega) (by omega) (by omega) hcw
      rw [BoxBlurFilter.boxblur_process_frame _ inb out n 0 w m2 _ (by push_cast; omega)]
      exact hg c hcw)
    m hconst h (le_refl _)
  exact key.2 i hi j hj

theorem exampleConst_apart (r c r2 c2 : Nat) (hr : r < 4) (hc : c < 4) (hr2 : r2 < 4)
    (hc2 : c2 < 4) :
    exampleBase.get_line r + (c : Int) ≠ exampleTallOut.get_line r2 + (c2 : Int) := by
  rw [BufferDescriptor.get_line_of_mask (b := exampleBase) rfl (by unfold UINT_MAX; omega),
    BufferDescriptor.get_line_of_mask (b := exampleTallOut) rfl (by unfold UINT_MAX; omega)]
  simp only [exampleBase, exampleTallOut]
  omega

theorem exampleConst_sample (row col : Nat) (hr : row < 4) (hc : col < 4) :
    exampleBase.sample exampleConstMem row col = 10 := by
  unfold BufferDescriptor.sample
  rw [BufferDescriptor.get_line_of_mask (b := exampleBase) rfl (by unfold UINT_MAX; omega)]
  unfold exampleConstMem
  simp only [exampleBase]
  rw [if_pos (by omega)]

/-- Witness for C11: the 4 x 4 all-10 plane gives an all-10 output; shown at the corner
samples `(0, 0)` and `(3, 3)` and at `(1, 2)`. -/
theorem BoxBlurFilter.preserves_constant_witness :
    exampleTallOut.sample
        (forRows (fun i m =>
          BoxBlurFilter.process (Spatial3x3Filter.new 4 4) exampleBase exampleTallOut i 0 4 m)
          4 exampleConstMem) 0 0 = 10 ∧
      exampleTallOut.sample
        (forRows (fun i m =>
          BoxBlurFilter.process (Spatial3x3Filter.new 4 4) exampleBase exampleTallOut i 0 4 m)
          4 exampleConstMem) 3 3 = 10 ∧
      exampleTallOut.sample
        (forRows (fun i m =>
          BoxBlurFilter.process (Spatial3x3Filter.new 4 4) exampleBase exampleTallOut i 0 4 m)
          4 exampleConstMem) 1 2 = 10 :=
  have h := (BoxBlurFilter.preserves_constant 4 4 10 (by decide) (by decide) (by decide)
    (by decide) (by decide) exampleBase exampleTallOut exampleConstMem exampleConst_sample
    ⟨rfl, by decide⟩ exampleConst_apart).2
  ⟨h 0 0 (by decide) (by decide), h 3 3 (by decide) (by decide),
    h 1 2 (by decide) (by decide)⟩

/-- C12: Sobel of a constant plane is zero.  For a `w x h` input plane (`w, h ≥ 1`) whose
every sample is `v`, `gx = 0` and `gy = 0` at every pixel, edge and corner pixels
included.  Hence, the floating-point tail mapping the gradients `(0, 0)` to 0 (the square
root of 0 is 0), on a full-height output plane sharing no address with the input each call
`process(i, 0, w)` leaves row `i` all 0 and processing every row yields an all-zero output
plane. -/
theorem SobelFilter.constant_gives_zero (magnitude : Int → Int → Nat) (w h v : Nat)
    (hw : 1 ≤ w) (hh : 1 ≤ h) (hW : w ≤ UINT_MAX) (hH : h ≤ UINT_MAX)
    (inb out : BufferDescriptor) (m : Mem)
    (hconst : ∀ row col, row < h → col < w → inb.sample m row col = v)
    (hmag : magnitude 0 0 = 0) (hfull : out.FullHeight w)
    (hapart : ∀ r c r2 c2, r < h → c < w → r2 < h → c2 < w →
      inb.get_line r + (c : Int) ≠ out.get_line r2 + (c2 : Int)) :
    (∀ i j, i < h → j < w →
        SobelFilter.gx (Spatial3x3Filter.new w h) inb i (j : Int) m = 0 ∧
          SobelFilter.gy (Spatial3x3Filter.new w h) inb i (j : Int) m = 0) ∧
      (∀ i j, i < h → j < w →
        out.sample
            (SobelFilter.process magnitude (Spatial3x3Filter.new w h) inb out i 0 w m) i j =
          0) ∧
      (∀ i j, i < h → j < w →
        out.sample
            (forRows (fun i m =>
              SobelFilter.process magnitude (Spatial3x3Filter.new w h) inb out i 0 w m) h m)
            i j = 0) := by
  have hrow : ∀ (m2 : Mem), (∀ row col, row < h → col < w → inb.sample m2 row col = v) →
      ∀ i j, i < h → j < w →
        out.sample
            (SobelFilter.process magnitude (Spatial3x3Filter.new w h) inb out i 0 w m2) i j =
          0 := by
    intro m2 hc i j hi hj
    unfold BufferDescriptor.sample
    obtain ⟨e1, e2⟩ := applyKernel_const (replicated inb m2 w h) v
      (replicated_const inb hw hh hc) i j
    rw [SobelFilter.sobel_process_read magnitude w h hw hh hW hH inb out m2 i 0 w hi (le_refl _)
      (apart_of_ne hapart hi) j (Nat.zero_le _) hj, e1, e2, hmag]
  refine ⟨?_, hrow m hconst, ?_⟩
  · intro i j hi hj
    rw [SobelFilter.gx_eq inb m hw hh hW hH i j hi hj,
      SobelFilter.gy_eq inb m hw hh hW hH i j hi hj]
    exact applyKernel_const (replicated inb m w h) v (replicated_const inb hw hh hconst) i j
  · intro i j hi hj
    have key := forRows_rows
      (fun i m => SobelFilter.process magnitude (Spatial3x3Filter.new w h) inb out i 0 w m) h
      (fun m2 => ∀ row col, row < h → col < w → inb.sample m2 row col = v)
      (fun k m2 => ∀ c, c < w → out.sample m2 k c = 0)
      (by
        intro n m2 hn hc row col hrow2 hcol
        unfold BufferDescriptor.sample
        beta_reduce
        rw [SobelFilter.sobel_process_frame magnitude _ inb out n 0 w m2 _
          (apart_of_ne hapart hn row col hrow2 hcol)]
        exact hc row col hrow2 hcol)
      (by
        intro n m2 hn hc c hcw
        exact hrow m2 hc n c hn hcw)
      (by
        intro n k m2 hn hk _ hg c hcw
        unfold BufferDescriptor.sample
        beta_reduce
        have hd := hfull.row_disjoint k n c (by omega) (by omega) (by omega) hcw
        rw [SobelFilter.sobel_process_frame magnitude _ inb out n 0 w m2 _
          (by push_cast; omega)]
        exact hg c hcw)
      m hconst h (le_refl _)
    exact key.2 i hi j hj

/-- Witness for C12: the 4 x 4 all-10 plane, with the integer square root of
`gx ^ 2 + gy ^ 2` clamped to 255 standing in for the floating-point tail; shown at the
corners `(0, 0)` and `(3, 3)`. -/
theorem SobelFilter.constant_gives_zero_witness :
    SobelFilter.gx (Spatial3x3Filter.new 4 4) exampleBase 0 ((0 : Nat) : Int)
        exampleConstMem = 0 ∧
      exampleTallOut.sample
        (forRows (fun i m =>
          SobelFilter.process (fun gx gy => min (Nat.sqrt (gx.natAbs ^ 2 + gy.natAbs ^ 2)) 255)
            (Spatial3x3Filter.new 4 4) exampleBase exampleTallOut i 0 4 m) 4 exampleConstMem)
        3 3 = 0 :=
  have h := SobelFilter.constant_gives_zero
    (fun gx gy => min (Nat.sqrt (gx.natAbs ^ 2 + gy.natAbs ^ 2)) 255) 4 4 10 (by decide)
    (by decide) (by decide) (by decide) exampleBase exampleTallOut exampleConstMem
    exampleConst_sample (by simp) ⟨rfl, by decide⟩ exampleConst_apart
  ⟨(h.1 0 0 (by decide) (by decide)).1, h.2.2 3 3 (by decide) (by decide)⟩

end GraphEngine
